import Mathlib

/-!
Verification of `velo_range`.

Shallow embedding of `src/combination/src/velo_range.c`, the program that takes a J2000
position and prints the velocity and frequency range occupied by Galactic HI emission in that
direction, together with the properties proved about it.

Conventions of the embedding.

* A C `double` is an element of a linearly ordered field `α`, with exact arithmetic. Every
  definition is computable for every such field (it can be run over `ℚ`); a statement about all
  real inputs is the instance `α = ℝ`.
* The functions of the C library (`sin`, `cos`, `asin`, `atan2`, `sqrt`, `atof`) and the constant
  `M_PI` are not code of the program: they are the fields of a parameter `M : Libm α`. Where a
  property needs a fact about them, that fact is a hypothesis: `M.Exact`, or the fact itself
  (the values of `sin` and `cos` at 0, their parity). The real functions satisfy all of them;
  the property of the inverse sine is stated for the real functions directly.
* A result of type `Option` is `none` when the C program has no defined result: an array is read
  outside its bounds, or a loop is given too little fuel to finish.
* The only division whose divisor can vanish in exact arithmetic is `RSUN / radius` at line 103.
  The C program evaluates it in IEEE-754 arithmetic; see `vRad`.
* The scan loop of lines 94-106 is embedded twice. `scan_iter`, `scan_loop`, `scan_after` and
  `velo_range` take numbers as angles and step `distance` by an exact 0.1. `scan_pass`,
  `scan_run`, `scan_state` and `velo_range_d` take angles that may be NaN and the values of
  `distance` as a sequence: `distance64`, the binary64 sums that the program computes
  (`dist_units` is their integer model, `8.5 - 2^-46` after 85 additions), or
  `distance_exact`, the exact multiples of 0.1. With numbers as angles and `distance_exact` the
  second loop is the first one (`scan_pass_num`, `scan_run_exact`, `velo_range_d_exact`).
  Properties that depend on the values of `distance` or fail for NaN angles are stated of the
  second loop.
-/

namespace VeloRange

/-- The C library as the program sees it: `M_PI` and the functions of `math.h` and `stdlib.h`
that `main` calls. -/
structure Libm (α : Type) where
  /-- The constant `M_PI` -/
  M_PI : α
  /-- The function `atof` of `stdlib.h` -/
  atof : String → α
  /-- The sine -/
  sin : α → α
  /-- The cosine -/
  cos : α → α
  /-- The inverse sine -/
  asin : α → α
  /-- The two-argument inverse tangent, `atan2 y x` -/
  atan2 : α → α → α
  /-- The square root -/
  sqrt : α → α

/-- The facts about the library functions that the numerical properties of the scan rely on.
They hold for the real sine, cosine and square root. -/
structure Libm.Exact {α : Type} [LinearOrderedField α] (M : Libm α) : Prop where
  /-- Pythagorean identity -/
  sin_sq_add_cos_sq : ∀ x : α, M.sin x ^ 2 + M.cos x ^ 2 = 1
  /-- The square root is not negative -/
  sqrt_nonneg : ∀ x : α, 0 ≤ M.sqrt x
  /-- The square root of a non-negative number squares to it -/
  mul_self_sqrt : ∀ x : α, 0 ≤ x → M.sqrt x * M.sqrt x = x

/-- The value of a `double` expression that may fail to be a number. -/
inductive Dbl (α : Type) where
  /-- An ordinary number -/
  | num (x : α)
  /-- The IEEE-754 not-a-number -/
  | nan
  deriving DecidableEq, Repr

/-- One line written to standard output by `printf`. -/
inductive Line (α : Type) where
  /-- A line of fixed text -/
  | text (s : String)
  /-- A line made of two tab-separated numeric fields, in this order -/
  | nums (field1 field2 : α)
  deriving DecidableEq, Repr

/-- Outcome of one pass through the `for` statement of lines 94-106. -/
inductive Iter (α : Type) where
  /-- The loop condition `distance < RSUN + RMAX` is false: the loop is left -/
  | done (v1 v2 : α)
  /-- The body ran into `break` at line 101 -/
  | brk (v1 v2 : α)
  /-- The body ran to its end and `distance += 0.1` was executed -/
  | next (distance v1 v2 : α)
  deriving DecidableEq, Repr

section Defs

variable {α : Type} [LinearOrderedField α]

/-- `#define VDEV 70.0` -/
def VDEV : α := 70.0

/-- `#define RMAX 20.0` -/
def RMAX : α := 20.0

/-- `#define ZDISC 5.0` -/
def ZDISC : α := 5.0

/-- `#define RSUN 8.5` -/
def RSUN : α := 8.5

/-- `#define FHI 1.42040575e+9` -/
def FHI : α := 1.42040575e+9

/-- `#define SOL 299792.458` -/
def SOL : α := 299792.458

/-- The table `rotcur[4][8]` of line 34 (Clemens 1985). -/
def rotcur : List (List α) :=
  [ [    0.0000, 3069.81000, -15809.80000, 43980.100000, -68287.3000000, 54904.0000000,
      -17731.00000000, 0.00000000],
    [  325.0912, -248.14670,    231.87099,  -110.735310,     25.0730060,    -2.1106250,
           0.00000000, 0.00000000],
    [-2342.6564, 2507.60391,  -1024.06876,   224.562732,    -28.4080026,     2.0697271,
          -0.08050808, 0.00129348],
    [  234.8800,    0.00000,      0.00000,     0.000000,      0.0000000,     0.0000000,
           0.00000000, 0.00000000] ]

/-- The array `breaks[4]` of line 39. -/
def breaks : List α := [0.00, 0.09, 0.45, 1.60]

/-- Read of a C array at an `int` index: `none` outside the bounds of the array. -/
def readAt {β : Type} (l : List β) (i : Int) : Option β :=
  if i < 0 then none else l[i.toNat]?

/-- The loop `while(r < 8.5 * breaks[index]) --index;` of line 42, started at `index`.
The result is the index at which the loop stops, `none` if it reads `breaks` out of bounds. -/
def index_loop (r : α) (index : Int) : Option Int :=
  if _h : index < 0 then none
  else
    match (breaks : List α)[index.toNat]? with
    | none => none
    | some b => if r < 8.5 * b then index_loop r (index - 1) else some index
termination_by (index + 1).toNat
decreasing_by omega

/-- Lines 44-45 of `rotation_curve`: the value of `vrot` after the loop
`for(order = 0; order < 8; ++order) vrot += rotcur[index][order] * pow(r, order);`
that is, the polynomial of segment `index` at `r`. -/
def vrot_at (index : Int) (r : α) : Option α :=
  match readAt (rotcur : List (List α)) index with
  | none => none
  | some row =>
    (List.range 8).foldlM
      (fun vrot order => row[order]?.map (fun c => vrot + c * r ^ order)) 0.0

/-- The function `rotation_curve` of lines 27-48. -/
def rotation_curve (r : α) : Option α :=
  let r := |r|
  let r := if r > RMAX then RMAX else r
  match index_loop r 3 with
  | none => none
  | some index => vrot_at index r

/-- The segment selection as the specification words it (section 4.2): the segment whose
break threshold, one of 0, 0.765, 3.825 and 13.6 (8.5 times 0.00, 0.09, 0.45, 1.60), is the
largest one not exceeding `x`. -/
def segment_spec (x : α) : Nat :=
  if x < 0.765 then 0 else if x < 3.825 then 1 else if x < 13.6 then 2 else 3

/-- The rotation curve as the specification words it (section 4.2): with `x` the absolute
value of `r` clamped to 20, the 8-term polynomial of the selected segment, in ascending powers
of `x`. -/
def rotation_curve_spec (r : α) : α :=
  let x := min |r| 20
  ∑ k in Finset.range 8,
    ((rotcur : List (List α)).getD (segment_spec x) []).getD k 0 * x ^ k

/-- The function `scale_height` of lines 55-61. -/
def scale_height (r : α) : α :=
  let r := |r|
  if r < RSUN / 2.0 then ZDISC / 2.0
  else ZDISC * (r / RSUN)

/-- The expression `FHI / (1.0 + v / SOL)` of lines 115 and 116. -/
def freq (v : α) : α := FHI / (1.0 + v / SOL)

/-- Lines 80-87 of `main`: the Galactic longitude and latitude `(glon, glat)` of the J2000
position `(alpha, delta)`, all in radians. -/
def galactic (M : Libm α) (alpha delta : α) : α × α :=
  let a0 := 192.859496 * M.M_PI / 180.0
  let d0 := 27.128353 * M.M_PI / 180.0
  let l0 := 122.932000 * M.M_PI / 180.0
  let glon := l0 - M.atan2 (M.cos delta * M.sin (alpha - a0))
    (M.sin delta * M.cos d0 - M.cos delta * M.sin d0 * M.cos (alpha - a0))
  let glat := M.asin (M.sin delta * M.sin d0 + M.cos delta * M.cos d0 * M.cos (alpha - a0))
  (glon, glat)

/-- Line 96: `height`. -/
def height (M : Libm α) (glat distance : α) : α :=
  distance * |M.sin glat|

/-- Line 97: `targetX`. -/
def targetX (M : Libm α) (glon glat distance : α) : α :=
  distance * M.sin glon * M.cos glat

/-- Line 98: `targetY`. -/
def targetY (M : Libm α) (glon glat distance : α) : α :=
  RSUN - distance * M.cos glon * M.cos glat

/-- Line 99: `radius`. -/
def radius (M : Libm α) (glon glat distance : α) : α :=
  M.sqrt (targetX M glon glat distance * targetX M glon glat distance
    + targetY M glon glat distance * targetY M glon glat distance)

/-- Line 103: the value of `vRad` for a sample at Galactocentric radius `r`.

The quotient `RSUN / r` has no value in exact arithmetic when `r = 0`. The C program evaluates
the line in IEEE-754 doubles: there `rotation_curve(0.0)` is `0.0`, `RSUN / 0.0` is `+inf`, their
product is NaN and so is `vRad`. That case is `Dbl.nan` here. The outer `none` is an
out-of-bounds read inside `rotation_curve`. -/
def vRad (M : Libm α) (glon glat r : α) : Option (Dbl α) :=
  match rotation_curve r, rotation_curve (RSUN : α) with
  | some vrot, some vsun =>
    if r = 0 then some Dbl.nan
    else some (Dbl.num ((vrot * (RSUN / r) - vsun) * M.sin glon * M.cos glat))
  | _, _ => none

/-- One pass through the `for` statement of lines 94-106, entered with the given values of
`distance`, `v1` and `v2`, for angles that are numbers and with the exact increment
`distance + 0.1` (see `scan_pass` for NaN angles and the binary64 increment). Both comparisons
of lines 104 and 105 are false for a NaN, which leaves `v1` and `v2` as they are. -/
def scan_iter (M : Libm α) (glon glat distance v1 v2 : α) : Option (Iter α) :=
  if distance < RSUN + RMAX then
    if height M glat distance > ZDISC then some (Iter.brk v1 v2)
    else
      match vRad M glon glat (radius M glon glat distance) with
      | none => none
      | some Dbl.nan => some (Iter.next (distance + 0.1) v1 v2)
      | some (Dbl.num v) =>
        let v1 := if v < v1 then v else v1
        let v2 := if v > v2 then v else v2
        some (Iter.next (distance + 0.1) v1 v2)
  else some (Iter.done v1 v2)

/-- The `for` loop of lines 94-106, run from the given values of `distance`, `v1` and `v2`
for at most `fuel` passes; the result is the pair `(v1, v2)` when the loop is left. -/
def scan_loop (M : Libm α) (glon glat : α) : Nat → α → α → α → Option (α × α)
  | 0, _, _, _ => none
  | fuel + 1, distance, v1, v2 =>
    match scan_iter M glon glat distance v1 v2 with
    | none => none
    | some (Iter.done a b) => some (a, b)
    | some (Iter.brk a b) => some (a, b)
    | some (Iter.next d a b) => scan_loop M glon glat fuel d a b

/-- The state of the `for` loop of lines 94-106 after `k` passes from its initial state
(`distance = 0.0`, `v1 = 1.0e+9`, `v2 = -1.0e+9`): `Iter.next` while the loop is running, and
the outcome `Iter.done` or `Iter.brk` once it is left. -/
def scan_after (M : Libm α) (glon glat : α) : Nat → Option (Iter α)
  | 0 => some (Iter.next 0.0 1.0e+9 (-1.0e+9))
  | k + 1 =>
    match scan_after M glon glat k with
    | some (Iter.next d v1 v2) => scan_iter M glon glat d v1 v2
    | other => other

/-- Lines 109-112: include the deviation velocity. -/
def deviation (v : α × α) : α × α :=
  let v1 := if v.1 > 0.0 then 0.0 else v.1
  let v2 := if v.2 < 0.0 then 0.0 else v.2
  (v1 - VDEV, v2 + VDEV)

/-- Lines 89-112 of `main`: the final pair `(v1, v2)` for the Galactic direction
`(glon, glat)`. -/
def velo_range (M : Libm α) (fuel : Nat) (glon glat : α) : Option (α × α) :=
  (scan_loop M glon glat fuel 0.0 1.0e+9 (-1.0e+9)).map deviation

/-- The function `main` of lines 68-122, for the argument vector `argv` (whose length is `argc`).
The result is the exit status and the lines written to standard output. -/
def main (M : Libm α) (fuel : Nat) (argv : List String) : Option (Int × List (Line α)) :=
  if argv.length ≠ 3 then
    some (1, [Line.text "Usage: ./velo_range <ra> <dec>\n"])
  else
    let alpha := M.M_PI * M.atof (argv.getD 1 "") / 180.0
    let delta := M.M_PI * M.atof (argv.getD 2 "") / 180.0
    let g := galactic M alpha delta
    match velo_range M fuel g.1 g.2 with
    | none => none
    | some (v1, v2) =>
      let f1 := freq v1
      let f2 := freq v2
      some (0, [Line.nums v1 v2, Line.nums f2 f1])

/-- The values of `v1` and `v2` in an outcome of the loop. -/
def Iter.bounds : Iter α → α × α
  | Iter.done v1 v2 => (v1, v2)
  | Iter.brk v1 v2 => (v1, v2)
  | Iter.next _ v1 v2 => (v1, v2)

/-- The unit in the last place of a binary64 number given as `n` units of `2^-56`: the spacing
of the doubles around it, in the same units. A double has 53 significant bits. The first
argument bounds the recursion. -/
def ulp_units : Nat → Nat → Nat
  | 0, _ => 1
  | fuel + 1, n => if n < 2 ^ 53 then 1 else 2 * ulp_units fuel (n / 2)

/-- IEEE-754 rounding to nearest, ties to even, of `n` units of `2^-56` to a binary64 number
(53 significant bits), in the same units. -/
def round53 (n : Nat) : Nat :=
  let q := ulp_units 64 n
  let r := n % q
  if 2 * r < q then n - r
  else if 2 * r > q then n - r + q
  else if (n - r) / q % 2 = 0 then n - r
  else n - r + q

/-- The binary64 constant `0.1` of line 94, `0x3FB999999999999A`, in units of `2^-56`. -/
def tenth_units : Nat := 7205759403792794

/-- The statement `distance += 0.1` of line 94 in binary64 arithmetic, on a value of `distance`
given in units of `2^-56`: the exact sum rounded to nearest. -/
def dist_step (u : Nat) : Nat := round53 (u + tenth_units)

/-- The value of `distance` after `k` executions of `distance += 0.1` from `0.0` in binary64
arithmetic (line 94), in units of `2^-56`. -/
def dist_units : Nat → Nat
  | 0 => 0
  | k + 1 => dist_step (dist_units k)

/-- The value of `distance` in pass `k + 1` of the loop of line 94 as the program computes it
in binary64 arithmetic. -/
def distance64 (k : Nat) : α := (dist_units k : α) / 2 ^ 56

/-- The value of `distance` in pass `k + 1` of the loop of line 94 with an exact step. -/
def distance_exact (k : Nat) : α := 0.1 * (k : α)

/-- The C comparison `a > b` for a double `a` that may be NaN: false for NaN. -/
def Dbl.gt (a : Dbl α) (b : α) : Bool :=
  match a with
  | Dbl.num x => decide (x > b)
  | Dbl.nan => false

/-- Line 96 for a latitude that may be NaN: `sin`, `fabs` and the product propagate NaN. -/
def height_d (M : Libm α) (glat : Dbl α) (distance : α) : Dbl α :=
  match glat with
  | Dbl.num b => Dbl.num (height M b distance)
  | Dbl.nan => Dbl.nan

/-- Lines 97-99 for angles that may be NaN: if either angle is NaN then `targetX` is NaN, and
so are its square, the sum and the square root. -/
def radius_d (M : Libm α) (glon glat : Dbl α) (distance : α) : Dbl α :=
  match glon, glat with
  | Dbl.num l, Dbl.num b => Dbl.num (radius M l b distance)
  | _, _ => Dbl.nan

/-- Line 103 for angles and a radius that may be NaN. For a NaN radius `rotation_curve` reads
no array out of bounds (the tests of lines 31 and 42 are false, the index stays 3) and returns
NaN, since `0.0 * pow(NaN, 1)` is NaN; a NaN factor makes `vRad` NaN. -/
def vRad_d (M : Libm α) (glon glat r : Dbl α) : Option (Dbl α) :=
  match glon, glat, r with
  | Dbl.num l, Dbl.num b, Dbl.num x => vRad M l b x
  | _, _, _ => some Dbl.nan

/-- One pass through the `for` statement of lines 94-106 for angles that may be NaN, entered
with the given values of `distance`, `v1` and `v2`; `next` is the value of `distance` after
the increment `distance += 0.1`. For numbers as angles and `next = distance + 0.1` this is
`scan_iter`. -/
def scan_pass (M : Libm α) (glon glat : Dbl α) (distance next v1 v2 : α) :
    Option (Iter α) :=
  if distance < RSUN + RMAX then
    if Dbl.gt (height_d M glat distance) ZDISC then some (Iter.brk v1 v2)
    else
      match vRad_d M glon glat (radius_d M glon glat distance) with
      | none => none
      | some Dbl.nan => some (Iter.next next v1 v2)
      | some (Dbl.num v) =>
        let v1 := if v < v1 then v else v1
        let v2 := if v > v2 then v else v2
        some (Iter.next next v1 v2)
  else some (Iter.done v1 v2)

/-- The `for` loop of lines 94-106 when `distance` takes the values `dist 0`, `dist 1`, ... in
its successive passes, run from pass `k + 1` with the given `v1` and `v2` for at most `fuel`
passes. The result is the pair `(v1, v2)` when the loop is left, and the number of times the
body was entered (a pass that ends in `break` has entered it, the pass in which the loop
condition is false has not). -/
def scan_run (dist : Nat → α) (M : Libm α) (glon glat : Dbl α) :
    Nat → Nat → α → α → Option (α × α × Nat)
  | 0, _, _, _ => none
  | fuel + 1, k, v1, v2 =>
    match scan_pass M glon glat (dist k) (dist (k + 1)) v1 v2 with
    | none => none
    | some (Iter.done a b) => some (a, b, 0)
    | some (Iter.brk a b) => some (a, b, 1)
    | some (Iter.next _ a b) =>
      (scan_run dist M glon glat fuel (k + 1) a b).map (fun r => (r.1, r.2.1, r.2.2 + 1))

/-- The state of that loop after `k` passes from its initial state (`v1 = 1.0e+9`,
`v2 = -1.0e+9`): `Iter.next` while the loop is running, and the outcome `Iter.done` or
`Iter.brk` once it is left. -/
def scan_state (dist : Nat → α) (M : Libm α) (glon glat : Dbl α) : Nat → Option (Iter α)
  | 0 => some (Iter.next (dist 0) 1.0e+9 (-1.0e+9))
  | k + 1 =>
    match scan_state dist M glon glat k with
    | some (Iter.next _ v1 v2) => scan_pass M glon glat (dist k) (dist (k + 1)) v1 v2
    | other => other

/-- Lines 89-112 of `main` for angles that may be NaN and the loop of `scan_run`: the final
pair `(v1, v2)`. The bounds `v1` and `v2` are never NaN, since a NaN fails the comparisons of
lines 104-105. -/
def velo_range_d (dist : Nat → α) (M : Libm α) (fuel : Nat) (glon glat : Dbl α) :
    Option (α × α) :=
  (scan_run dist M glon glat fuel 0 1.0e+9 (-1.0e+9)).map (fun r => deviation (r.1, r.2.1))

end Defs

section Rotation

variable {α : Type} [LinearOrderedField α]

theorem range_eight : List.range 8 = [0, 1, 2, 3, 4, 5, 6, 7] := by decide

theorem toNat_two : Int.toNat 2 = 2 := rfl

theorem toNat_three : Int.toNat 3 = 3 := rfl

/-- The polynomial of segment 0. -/
theorem vrot_at_zero (x : α) : vrot_at 0 x = some (3069.81 * x - 15809.8 * x ^ 2
    + 43980.1 * x ^ 3 - 68287.3 * x ^ 4 + 54904 * x ^ 5 - 17731 * x ^ 6) := by
  simp only [vrot_at, readAt, rotcur, range_eight, toNat_two, toNat_three]
  norm_num
  ring

/-- The polynomial of segment 1. -/
theorem vrot_at_one (x : α) : vrot_at 1 x = some (325.0912 - 248.1467 * x + 231.87099 * x ^ 2
    - 110.73531 * x ^ 3 + 25.073006 * x ^ 4 - 2.110625 * x ^ 5) := by
  simp only [vrot_at, readAt, rotcur, range_eight, toNat_two, toNat_three]
  norm_num
  ring

/-- The polynomial of segment 2. -/
theorem vrot_at_two (x : α) : vrot_at 2 x = some (-2342.6564 + 2507.60391 * x
    - 1024.06876 * x ^ 2 + 224.562732 * x ^ 3 - 28.4080026 * x ^ 4 + 2.0697271 * x ^ 5
    - 0.08050808 * x ^ 6 + 0.00129348 * x ^ 7) := by
  simp only [vrot_at, readAt, rotcur, range_eight, toNat_two, toNat_three]
  norm_num
  ring

/-- The polynomial of segment 3 is constant. -/
theorem vrot_at_three (x : α) : vrot_at 3 x = some 234.88 := by
  simp only [vrot_at, readAt, rotcur, range_eight, toNat_two, toNat_three]
  norm_num

theorem index_loop_at_three (x : α) :
    index_loop x 3 = if x < 13.6 then index_loop x 2 else some 3 := by
  have e1 : (8.5 * 1.60 : α) = 13.6 := by norm_num
  rw [index_loop]
  simp only [breaks, toNat_three, List.getElem?_cons_succ, List.getElem?_cons_zero, e1]
  rfl

theorem index_loop_at_two (x : α) :
    index_loop x 2 = if x < 3.825 then index_loop x 1 else some 2 := by
  have e1 : (8.5 * 0.45 : α) = 3.825 := by norm_num
  rw [index_loop]
  simp only [breaks, toNat_two, List.getElem?_cons_succ, List.getElem?_cons_zero, e1]
  rfl

theorem index_loop_at_one (x : α) :
    index_loop x 1 = if x < 0.765 then index_loop x 0 else some 1 := by
  have e1 : (8.5 * 0.09 : α) = 0.765 := by norm_num
  rw [index_loop]
  simp only [breaks, Int.toNat_one, List.getElem?_cons_succ, List.getElem?_cons_zero, e1]
  rfl

/-- At index 0 the loop stops unless `x < 0`, in which case it goes on to read `breaks[-1]`. -/
theorem index_loop_at_zero (x : α) :
    index_loop x 0 = if x < 0 then none else some 0 := by
  have e1 : (8.5 * 0.00 : α) = 0 := by norm_num
  rw [index_loop]
  simp only [breaks, Int.toNat_zero, List.getElem?_cons_succ, List.getElem?_cons_zero, e1]
  rw [index_loop]
  rfl

theorem segment_spec_le (x : α) : segment_spec x ≤ 3 := by
  unfold segment_spec
  split_ifs <;> decide

/-- The loop of line 42 stops at the segment the specification selects, for every `x ≥ 0`. -/
theorem index_loop_three (x : α) (hx : 0 ≤ x) :
    index_loop x 3 = some (segment_spec x : Int) := by
  have c1 : (0.765 : α) < 3.825 := by norm_num
  have c2 : (3.825 : α) < 13.6 := by norm_num
  rw [index_loop_at_three, index_loop_at_two, index_loop_at_one, index_loop_at_zero]
  unfold segment_spec
  by_cases h1 : x < 0.765
  · have h2 := lt_trans h1 c1
    have h3 := lt_trans h2 c2
    simp [h1, h2, h3, not_lt.mpr hx]
  · by_cases h2 : x < 3.825
    · have h3 := lt_trans h2 c2
      simp [h1, h2, h3]
    · by_cases h3 : x < 13.6
      · simp [h1, h2, h3]
      · simp [h1, h2, h3]

/-- The clamp of lines 30-31 is the minimum of `|r|` and 20. -/
theorem clamp_eq_min (r : α) : (if |r| > RMAX then RMAX else |r|) = min |r| 20 := by
  unfold RMAX
  by_cases h : |r| > (20.0 : α)
  · rw [if_pos h, min_eq_right]
    · norm_num
    · norm_num at h
      exact le_of_lt h
  · rw [if_neg h, min_eq_left]
    norm_num at h
    exact h

theorem clamp_nonneg (r : α) : (0 : α) ≤ min |r| 20 :=
  le_min (abs_nonneg r) (by norm_num)

/-- The function `rotation_curve` evaluates the polynomial of the segment that the
specification selects, at the clamped radius. -/
theorem rotation_curve_eq (r : α) :
    rotation_curve r = vrot_at (segment_spec (min |r| 20) : Int) (min |r| 20) := by
  unfold rotation_curve
  simp only [clamp_eq_min]
  rw [index_loop_three _ (clamp_nonneg r)]

/-- Each polynomial as a sum over the eight table entries of its row. -/
theorem vrot_at_eq_sum (i : Nat) (hi : i ≤ 3) (x : α) :
    vrot_at (i : Int) x
      = some (∑ k in Finset.range 8, ((rotcur : List (List α)).getD i []).getD k 0 * x ^ k) := by
  have h : i = 0 ∨ i = 1 ∨ i = 2 ∨ i = 3 := by omega
  rcases h with h | h | h | h <;> subst h
  · have := vrot_at_zero x
    simp only [Nat.cast_zero] at *
    rw [this]
    simp only [rotcur, Finset.sum_range_succ, Finset.sum_range_zero, List.getD_cons_zero,
      List.getD_cons_succ]
    norm_num
    ring
  · have := vrot_at_one x
    simp only [Nat.cast_one] at *
    rw [this]
    simp only [rotcur, Finset.sum_range_succ, Finset.sum_range_zero, List.getD_cons_zero,
      List.getD_cons_succ]
    norm_num
    ring
  · have := vrot_at_two x
    simp only [Nat.cast_ofNat] at *
    rw [this]
    simp only [rotcur, Finset.sum_range_succ, Finset.sum_range_zero, List.getD_cons_zero,
      List.getD_cons_succ]
    norm_num
    ring
  · have := vrot_at_three x
    simp only [Nat.cast_ofNat] at *
    rw [this]
    simp only [rotcur, Finset.sum_range_succ, Finset.sum_range_zero, List.getD_cons_zero,
      List.getD_cons_succ]
    norm_num

/-- The function `rotation_curve` returns the value the specification defines. -/
theorem rotation_curve_eq_spec (r : α) : rotation_curve r = some (rotation_curve_spec r) := by
  rw [rotation_curve_eq, vrot_at_eq_sum _ (segment_spec_le _)]
  rfl

theorem breaks_cases (j : Nat) (b : α) (h : (breaks : List α)[j]? = some b) :
    (j = 0 ∧ b = 0) ∨ (j = 1 ∧ b = 0.09) ∨ (j = 2 ∧ b = 0.45) ∨ (j = 3 ∧ b = 1.60) := by
  unfold breaks at h
  match j, h with
  | 0, h => simp at h; left; exact ⟨rfl, by rw [← h]; norm_num⟩
  | 1, h => simp at h; right; left; exact ⟨rfl, by rw [← h]⟩
  | 2, h => simp at h; right; right; left; exact ⟨rfl, by rw [← h]⟩
  | 3, h => simp at h; right; right; right; exact ⟨rfl, by rw [← h]⟩
  | n + 4, h => simp at h

/-- The selected segment is the largest one whose threshold `8.5 * breaks[j]` does not
exceed `x`. -/
theorem segment_spec_largest (x : α) (hx : 0 ≤ x) (j : Nat) (b : α)
    (h : (breaks : List α)[j]? = some b) : 8.5 * b ≤ x ↔ j ≤ segment_spec x := by
  have c1 : (0.765 : α) < 3.825 := by norm_num
  have c2 : (3.825 : α) < 13.6 := by norm_num
  have e1 : (8.5 * 1.60 : α) = 13.6 := by norm_num
  have e2 : (8.5 * 0.45 : α) = 3.825 := by norm_num
  have e3 : (8.5 * 0.09 : α) = 0.765 := by norm_num
  have e4 : (8.5 * 0 : α) = 0 := by norm_num
  unfold segment_spec
  rcases breaks_cases j b h with ⟨hj, hb⟩ | ⟨hj, hb⟩ | ⟨hj, hb⟩ | ⟨hj, hb⟩ <;> subst hj <;> subst hb
  · rw [e4]
    simp [hx]
  · rw [e3]
    split_ifs with h1 h2 h3
    · simp [h1]
    · simp [le_of_not_lt h1]
    · simp [le_of_not_lt h1]
    · simp [le_of_not_lt h1]
  · rw [e2]
    split_ifs with h1 h2 h3
    · simp [lt_trans h1 c1]
    · simp [h2]
    · simp [le_of_not_lt h2]
    · simp [le_of_not_lt h2]
  · rw [e1]
    split_ifs with h1 h2 h3
    · simp [lt_trans (lt_trans h1 c1) c2]
    · simp [lt_trans h2 c2]
    · simp [h3]
    · simp [le_of_not_lt h3]

theorem rotation_curve_neg (r : α) : rotation_curve (-r) = rotation_curve r := by
  rw [rotation_curve_eq, rotation_curve_eq, abs_neg]

theorem rotation_curve_zero : rotation_curve (0 : α) = some 0 := by
  rw [rotation_curve_eq]
  have h : min |(0 : α)| 20 = 0 := by rw [abs_zero]; exact min_eq_left (by norm_num)
  rw [h]
  have hs : segment_spec (0 : α) = 0 := by unfold segment_spec; norm_num
  rw [hs, Nat.cast_zero, vrot_at_zero]
  norm_num

/-- C5: for every `r` with `|r| ≥ 20.0` the value `rotation_curve r` is defined and equals
`rotation_curve 20.0`, and `rotation_curve 20.0` equals `rotation_curve (-20.0)`. -/
theorem C5_rotation_curve_clamped (r : α) (h : 20.0 ≤ |r|) :
    (rotation_curve r).isSome ∧ rotation_curve r = rotation_curve 20.0
      ∧ rotation_curve (20.0 : α) = rotation_curve (-20.0) := by
  have h20 : (20.0 : α) = 20 := by norm_num
  rw [h20] at h ⊢
  have hr : min |r| 20 = 20 := min_eq_right h
  have ha : min |(20 : α)| 20 = 20 := by rw [abs_of_nonneg (by norm_num)]; exact min_self _
  refine ⟨?_, ?_, ?_⟩
  · rw [rotation_curve_eq_spec]
    rfl
  · rw [rotation_curve_eq, rotation_curve_eq, hr, ha]
  · rw [rotation_curve_neg]

/-- Witness of C5 at `r = -25`. -/
theorem C5_rotation_curve_clamped_witness :
    (20.0 : ℚ) ≤ |(-25 : ℚ)| ∧ ((rotation_curve (-25 : ℚ)).isSome
      ∧ rotation_curve (-25 : ℚ) = rotation_curve 20.0
      ∧ rotation_curve (20.0 : ℚ) = rotation_curve (-20.0)) :=
  ⟨by norm_num [abs_of_neg], C5_rotation_curve_clamped (-25) (by norm_num [abs_of_neg])⟩

/-- C6: `rotation_curve` is total and equals the piecewise reference definition. For every `r`,
with `x = min(|r|, 20)`, the descending loop of line 42 stops at an index `i` in `0..3`, which is
the segment of the reference definition and the largest index whose threshold `8.5 * breaks[i]`
does not exceed `x`; the result is the sum over `k = 0..7` of `rotcur[i][k] * x^k`; the function
is even, and its value at 0 is 0. -/
theorem C6_rotation_curve_total_piecewise (r : α) :
    (∃ i : Nat, index_loop (min |r| 20) 3 = some (i : Int) ∧ i ≤ 3
        ∧ i = segment_spec (min |r| 20)
        ∧ (∀ (j : Nat) (b : α), (breaks : List α)[j]? = some b → (8.5 * b ≤ min |r| 20 ↔ j ≤ i))
        ∧ rotation_curve r = some (∑ k in Finset.range 8,
            ((rotcur : List (List α)).getD i []).getD k 0 * (min |r| 20) ^ k))
      ∧ rotation_curve r = some (rotation_curve_spec r)
      ∧ rotation_curve (-r) = rotation_curve r
      ∧ rotation_curve (0 : α) = some 0 := by
  refine ⟨⟨segment_spec (min |r| 20), index_loop_three _ (clamp_nonneg r), segment_spec_le _, rfl,
    fun j b hb => segment_spec_largest _ (clamp_nonneg r) j b hb, ?_⟩,
    rotation_curve_eq_spec r, rotation_curve_neg r, rotation_curve_zero⟩
  rw [rotation_curve_eq_spec]
  rfl

/-- C7: at each of the three break radii 0.765, 3.825 and 13.6 (8.5 times 0.09, 0.45 and 1.60)
the polynomial of the segment below the break and the polynomial of the segment above it,
both evaluated at the break radius, differ by less than 1 km/s. -/
theorem C7_rotation_curve_continuous_at_breaks :
    ((8.5 * 0.09 : α) = 0.765 ∧ (8.5 * 0.45 : α) = 3.825 ∧ (8.5 * 1.60 : α) = 13.6)
      ∧ (∃ below above : α, vrot_at 0 0.765 = some below ∧ vrot_at 1 0.765 = some above
          ∧ |below - above| < 1)
      ∧ (∃ below above : α, vrot_at 1 3.825 = some below ∧ vrot_at 2 3.825 = some above
          ∧ |below - above| < 1)
      ∧ (∃ below above : α, vrot_at 2 13.6 = some below ∧ vrot_at 3 13.6 = some above
          ∧ |below - above| < 1) := by
  refine ⟨⟨by norm_num, by norm_num, by norm_num⟩, ⟨_, _, vrot_at_zero _, vrot_at_one _, ?_⟩,
    ⟨_, _, vrot_at_one _, vrot_at_two _, ?_⟩, ⟨_, _, vrot_at_two _, vrot_at_three _, ?_⟩⟩
  · rw [abs_lt]
    constructor <;> norm_num
  · rw [abs_lt]
    constructor <;> norm_num
  · rw [abs_lt]
    constructor <;> norm_num

/-- C8: for every `r`, `scale_height r` is 2.5 when `|r| < 4.25` and `5.0 * |r| / 8.5`
otherwise; `scale_height 8.5` is exactly 5.0, and the function is even. -/
theorem C8_scale_height (r : α) :
    scale_height r = (if |r| < 4.25 then 2.5 else 5.0 * |r| / 8.5)
      ∧ scale_height (8.5 : α) = 5.0
      ∧ scale_height (-r) = scale_height r := by
  have e : (RSUN / 2.0 : α) = 4.25 := by unfold RSUN; norm_num
  refine ⟨?_, ?_, ?_⟩
  · unfold scale_height
    simp only [e]
    split_ifs
    · unfold ZDISC; norm_num
    · unfold ZDISC RSUN; ring
  · unfold scale_height
    simp only [e]
    rw [abs_of_nonneg (by norm_num), if_neg (by norm_num)]
    unfold ZDISC RSUN
    norm_num
  · unfold scale_height
    simp only [abs_neg]

/-- Powers of a number of absolute value at most `h` lie between `-h^k` and `h^k`. -/
theorem pow_bounds (t h : α) (ht : |t| ≤ h) (k : ℕ) : -(h ^ k) ≤ t ^ k ∧ t ^ k ≤ h ^ k := by
  have hk := pow_le_pow_left₀ (abs_nonneg t) ht k
  rw [← abs_pow] at hk
  exact abs_le.mp hk

/-- A coarse bound on segment 0 over its interval. -/
theorem vrot_at_zero_bound (x : α) (h0 : 0 ≤ x) (h1 : x ≤ 0.765) :
    ∃ v, vrot_at 0 x = some v ∧ |v| ≤ 73000 := by
  refine ⟨_, vrot_at_zero x, ?_⟩
  have hx : |x| ≤ 0.765 := by rw [abs_of_nonneg h0]; exact h1
  have p2 := pow_bounds x 0.765 hx 2
  have p3 := pow_bounds x 0.765 hx 3
  have p4 := pow_bounds x 0.765 hx 4
  have p5 := pow_bounds x 0.765 hx 5
  have p6 := pow_bounds x 0.765 hx 6
  norm_num at p2 p3 p4 p5 p6 h1
  rw [abs_le]
  constructor
  · norm_num
    linarith [p2.1, p2.2, p3.1, p3.2, p4.1, p4.2, p5.1, p5.2, p6.1, p6.2]
  · norm_num
    linarith [p2.1, p2.2, p3.1, p3.2, p4.1, p4.2, p5.1, p5.2, p6.1, p6.2]

/-- A coarse bound on segment 1 over its interval. -/
theorem vrot_at_one_bound (x : α) (h0 : 0 ≤ x) (h1 : x ≤ 3.825) :
    ∃ v, vrot_at 1 x = some v ∧ |v| ≤ 73000 := by
  refine ⟨_, vrot_at_one x, ?_⟩
  have hx : |x| ≤ 3.825 := by rw [abs_of_nonneg h0]; exact h1
  have p2 := pow_bounds x 3.825 hx 2
  have p3 := pow_bounds x 3.825 hx 3
  have p4 := pow_bounds x 3.825 hx 4
  have p5 := pow_bounds x 3.825 hx 5
  norm_num at p2 p3 p4 p5 h1
  rw [abs_le]
  constructor
  · norm_num
    linarith [p2.1, p2.2, p3.1, p3.2, p4.1, p4.2, p5.1, p5.2]
  · norm_num
    linarith [p2.1, p2.2, p3.1, p3.2, p4.1, p4.2, p5.1, p5.2]

/-- Segment 2 written in powers of `x - 9`. -/
theorem vrot_at_two_shift (x : α) : vrot_at 2 x = some (10711576307 / 50000000
    - 444976143 / 50000000 * (x - 9) + 5925991 / 3125000 * (x - 9) ^ 2
    + 3935157 / 2500000 * (x - 9) ^ 3 - 844581 / 10000000 * (x - 9) ^ 4
    - 3874987 / 50000000 * (x - 9) ^ 5 + 24529 / 25000000 * (x - 9) ^ 6
    + 32337 / 25000000 * (x - 9) ^ 7) := by
  rw [vrot_at_two]
  congr 1
  norm_num
  ring

/-- A coarse bound on segment 2 over its interval. -/
theorem vrot_at_two_bound (x : α) (h0 : 3.825 ≤ x) (h1 : x ≤ 13.6) :
    ∃ v, vrot_at 2 x = some v ∧ |v| ≤ 73000 := by
  refine ⟨_, vrot_at_two_shift x, ?_⟩
  have hx : |x - 9| ≤ 5.175 := by
    rw [abs_le]
    norm_num at h0 h1 ⊢
    constructor <;> linarith
  have p1 := pow_bounds (x - 9) 5.175 hx 1
  have p2 := pow_bounds (x - 9) 5.175 hx 2
  have p3 := pow_bounds (x - 9) 5.175 hx 3
  have p4 := pow_bounds (x - 9) 5.175 hx 4
  have p5 := pow_bounds (x - 9) 5.175 hx 5
  have p6 := pow_bounds (x - 9) 5.175 hx 6
  have p7 := pow_bounds (x - 9) 5.175 hx 7
  generalize x - 9 = t at p1 p2 p3 p4 p5 p6 p7 ⊢
  norm_num at p1 p2 p3 p4 p5 p6 p7
  rw [abs_le]
  constructor
  · linarith [p1.1, p1.2, p2.1, p2.2, p3.1, p3.2, p4.1, p4.2, p5.1, p5.2, p6.1, p6.2, p7.1, p7.2]
  · linarith [p1.1, p1.2, p2.1, p2.2, p3.1, p3.2, p4.1, p4.2, p5.1, p5.2, p6.1, p6.2, p7.1, p7.2]

/-- The rotation curve is defined everywhere and coarsely bounded. -/
theorem rotation_curve_bound (r : α) : ∃ v, rotation_curve r = some v ∧ |v| ≤ 73000 := by
  rw [rotation_curve_eq]
  have hx := clamp_nonneg r
  generalize min |r| 20 = x at hx ⊢
  unfold segment_spec
  by_cases h1 : x < 0.765
  · rw [if_pos h1]
    exact vrot_at_zero_bound x hx (le_of_lt h1)
  · rw [if_neg h1]
    by_cases h2 : x < 3.825
    · rw [if_pos h2]
      exact vrot_at_one_bound x hx (le_of_lt h2)
    · rw [if_neg h2]
      by_cases h3 : x < 13.6
      · rw [if_pos h3]
        exact vrot_at_two_bound x (le_of_not_lt h2) (le_of_lt h3)
      · rw [if_neg h3]
        refine ⟨_, vrot_at_three x, ?_⟩
        rw [abs_of_nonneg (by norm_num)]
        norm_num

theorem rotation_curve_spec_bound (r : α) : |rotation_curve_spec r| ≤ 73000 := by
  obtain ⟨v, hv, hb⟩ := rotation_curve_bound r
  rw [rotation_curve_eq_spec] at hv
  rw [Option.some.inj hv]
  exact hb

theorem segment_spec_outer (x : α) (h : 13.6 ≤ x) : segment_spec x = 3 := by
  have c1 : (0.765 : α) < 3.825 := by norm_num
  have c2 : (3.825 : α) < 13.6 := by norm_num
  unfold segment_spec
  rw [if_neg (by linarith), if_neg (by linarith), if_neg (by linarith)]

/-- C20: the rotation curve is flat beyond the last break. For every `r` with `|r| ≥ 13.6` the
value of `rotation_curve r` is exactly 234.88, and it is also what lines 41-47 return at `|r|`
itself, without the clamp of line 31: the clamp to `RMAX = 20.0` does not change the result. -/
theorem C20_rotation_curve_flat (r : α) (h : 13.6 ≤ |r|) :
    rotation_curve r = some 234.88
      ∧ (index_loop |r| 3).bind (fun index => vrot_at index |r|) = rotation_curve r := by
  have h20 : (13.6 : α) ≤ 20 := by norm_num
  have hx : (13.6 : α) ≤ min |r| 20 := le_min h h20
  have e1 : rotation_curve r = some 234.88 := by
    rw [rotation_curve_eq, segment_spec_outer _ hx]
    exact vrot_at_three _
  refine ⟨e1, ?_⟩
  rw [e1, index_loop_three _ (abs_nonneg r), segment_spec_outer _ h]
  exact vrot_at_three _

/-- Witness of C20 at `r = -50`. -/
theorem C20_rotation_curve_flat_witness :
    (13.6 : ℚ) ≤ |(-50 : ℚ)|
      ∧ (rotation_curve (-50 : ℚ) = some 234.88
        ∧ (index_loop |(-50 : ℚ)| 3).bind (fun index => vrot_at index |(-50 : ℚ)|)
          = rotation_curve (-50 : ℚ)) :=
  ⟨by norm_num [abs_of_neg], C20_rotation_curve_flat (-50) (by norm_num [abs_of_neg])⟩

/-- Segment 0 divided by `x` is positive on `[0, 0.36]`. -/
theorem seg_zero_pos_inner (x : α) (h0 : 0 ≤ x) (h1 : x ≤ 9 / 25) :
    0 < 306981 / 100 - 79049 / 5 * x + 439801 / 10 * x ^ 2 - 682873 / 10 * x ^ 3 + 54904 * x ^ 4
        - 17731 * x ^ 5 := by
  have e : 306981 / 100 - 79049 / 5 * x + 439801 / 10 * x ^ 2 - 682873 / 10 * x ^ 3
        + 54904 * x ^ 4 - 17731 * x ^ 5
      = 407823542631 / 312500000 - 6783444401 / 1250000 * (x - 9 / 50)
        + 52325699 / 3125 * (x - 9 / 50) ^ 2 - 4312658 / 125 * (x - 9 / 50) ^ 3
        + 389461 / 10 * (x - 9 / 50) ^ 4 - 17731 * (x - 9 / 50) ^ 5 := by
    ring
  have ht : |x - 9 / 50| ≤ 9 / 50 := by
    rw [abs_le]
    constructor <;> linarith
  have p1 := pow_bounds (x - 9 / 50) (9 / 50) ht 1
  have p2 := pow_bounds (x - 9 / 50) (9 / 50) ht 2
  have p3 := pow_bounds (x - 9 / 50) (9 / 50) ht 3
  have p4 := pow_bounds (x - 9 / 50) (9 / 50) ht 4
  have p5 := pow_bounds (x - 9 / 50) (9 / 50) ht 5
  have q2 : 0 ≤ (x - 9 / 50) ^ 2 := by positivity
  have q4 : 0 ≤ (x - 9 / 50) ^ 4 := by positivity
  rw [e]
  generalize x - 9 / 50 = t at p1 p2 p3 p4 p5 q2 q4 ⊢
  norm_num at p1 p2 p3 p4 p5
  linarith [p1.1, p1.2, p2.1, p2.2, p3.1, p3.2, p4.1, p4.2, p5.1, p5.2, q2, q4]

/-- Segment 0 divided by `x` is positive on `[0.36, 0.78]`. -/
theorem seg_zero_pos_outer (x : α) (h0 : 9 / 25 ≤ x) (h1 : x ≤ 39 / 50) :
    0 < 306981 / 100 - 79049 / 5 * x + 439801 / 10 * x ^ 2 - 682873 / 10 * x ^ 3 + 54904 * x ^ 4
        - 17731 * x ^ 5 := by
  have e : 306981 / 100 - 79049 / 5 * x + 439801 / 10 * x ^ 2 - 682873 / 10 * x ^ 3
        + 54904 * x ^ 4 - 17731 * x ^ 5
      = 4298351438733 / 10000000000 - 18383882171 / 20000000 * (x - 57 / 100)
        + 140210377 / 100000 * (x - 57 / 100) ^ 2 - 714199 / 1000 * (x - 57 / 100) ^ 3
        + 87413 / 20 * (x - 57 / 100) ^ 4 - 17731 * (x - 57 / 100) ^ 5 := by
    ring
  have ht : |x - 57 / 100| ≤ 21 / 100 := by
    rw [abs_le]
    constructor <;> linarith
  have p1 := pow_bounds (x - 57 / 100) (21 / 100) ht 1
  have p2 := pow_bounds (x - 57 / 100) (21 / 100) ht 2
  have p3 := pow_bounds (x - 57 / 100) (21 / 100) ht 3
  have p4 := pow_bounds (x - 57 / 100) (21 / 100) ht 4
  have p5 := pow_bounds (x - 57 / 100) (21 / 100) ht 5
  have q2 : 0 ≤ (x - 57 / 100) ^ 2 := by positivity
  have q4 : 0 ≤ (x - 57 / 100) ^ 4 := by positivity
  rw [e]
  generalize x - 57 / 100 = t at p1 p2 p3 p4 p5 q2 q4 ⊢
  norm_num at p1 p2 p3 p4 p5
  linarith [p1.1, p1.2, p2.1, p2.2, p3.1, p3.2, p4.1, p4.2, p5.1, p5.2, q2, q4]

/-- Segment 1 is positive on `[0.7, 3.9]`. -/
theorem seg_one_pos (x : α) (h0 : 7 / 10 ≤ x) (h1 : x ≤ 39 / 10) :
    0 < 203182 / 625 - 2481467 / 10000 * x + 23187099 / 100000 * x ^ 2
        - 11073531 / 100000 * x ^ 3 + 12536503 / 500000 * x ^ 4 - 3377 / 1600 * x ^ 5 := by
  have e : 203182 / 625 - 2481467 / 10000 * x + 23187099 / 100000 * x ^ 2
        - 11073531 / 100000 * x ^ 3 + 12536503 / 500000 * x ^ 4 - 3377 / 1600 * x ^ 5
      = 3988665061817 / 20000000000 - 27952330009 / 2000000000 * (x - 23 / 10)
        + 681481769 / 100000000 * (x - 23 / 10) ^ 2 + 82842827 / 10000000 * (x - 23 / 10) ^ 3
        + 1601637 / 2000000 * (x - 23 / 10) ^ 4 - 3377 / 1600 * (x - 23 / 10) ^ 5 := by
    ring
  have ht : |x - 23 / 10| ≤ 8 / 5 := by
    rw [abs_le]
    constructor <;> linarith
  have p1 := pow_bounds (x - 23 / 10) (8 / 5) ht 1
  have p2 := pow_bounds (x - 23 / 10) (8 / 5) ht 2
  have p3 := pow_bounds (x - 23 / 10) (8 / 5) ht 3
  have p4 := pow_bounds (x - 23 / 10) (8 / 5) ht 4
  have p5 := pow_bounds (x - 23 / 10) (8 / 5) ht 5
  have q2 : 0 ≤ (x - 23 / 10) ^ 2 := by positivity
  have q4 : 0 ≤ (x - 23 / 10) ^ 4 := by positivity
  rw [e]
  generalize x - 23 / 10 = t at p1 p2 p3 p4 p5 q2 q4 ⊢
  norm_num at p1 p2 p3 p4 p5
  linarith [p1.1, p1.2, p2.1, p2.2, p3.1, p3.2, p4.1, p4.2, p5.1, p5.2, q2, q4]

/-- Segment 2 is positive on `[3.8, 8.8]`. -/
theorem seg_two_pos_inner (x : α) (h0 : 19 / 5 ≤ x) (h1 : x ≤ 44 / 5) :
    0 < -5856641 / 2500 + 250760391 / 100000 * x - 25601719 / 25000 * x ^ 2
        + 56140683 / 250000 * x ^ 3 - 142040013 / 5000000 * x ^ 4 + 20697271 / 10000000 * x ^ 5
        - 1006351 / 12500000 * x ^ 6 + 32337 / 25000000 * x ^ 7 := by
  have e : -5856641 / 2500 + 250760391 / 100000 * x - 25601719 / 25000 * x ^ 2
        + 56140683 / 250000 * x ^ 3 - 142040013 / 5000000 * x ^ 4 + 20697271 / 10000000 * x ^ 5
        - 1006351 / 12500000 * x ^ 6 + 32337 / 25000000 * x ^ 7
      = 56690280800229349 / 250000000000000 + 100113343944621 / 25000000000000 * (x - 63 / 10)
        - 6022442849989 / 2500000000000 * (x - 63 / 10) ^ 2
        - 57191757261 / 50000000000 * (x - 63 / 10) ^ 3
        + 889966983 / 5000000000 * (x - 63 / 10) ^ 4
        + 261560803 / 2500000000 * (x - 63 / 10) ^ 5 - 5866403 / 250000000 * (x - 63 / 10) ^ 6
        + 32337 / 25000000 * (x - 63 / 10) ^ 7 := by
    ring
  have ht : |x - 63 / 10| ≤ 5 / 2 := by
    rw [abs_le]
    constructor <;> linarith
  have p1 := pow_bounds (x - 63 / 10) (5 / 2) ht 1
  have p2 := pow_bounds (x - 63 / 10) (5 / 2) ht 2
  have p3 := pow_bounds (x - 63 / 10) (5 / 2) ht 3
  have p4 := pow_bounds (x - 63 / 10) (5 / 2) ht 4
  have p5 := pow_bounds (x - 63 / 10) (5 / 2) ht 5
  have p6 := pow_bounds (x - 63 / 10) (5 / 2) ht 6
  have p7 := pow_bounds (x - 63 / 10) (5 / 2) ht 7
  have q2 : 0 ≤ (x - 63 / 10) ^ 2 := by positivity
  have q4 : 0 ≤ (x - 63 / 10) ^ 4 := by positivity
  have q6 : 0 ≤ (x - 63 / 10) ^ 6 := by positivity
  rw [e]
  generalize x - 63 / 10 = t at p1 p2 p3 p4 p5 p6 p7 q2 q4 q6 ⊢
  norm_num at p1 p2 p3 p4 p5 p6 p7
  linarith [p1.1, p1.2, p2.1, p2.2, p3.1, p3.2, p4.1, p4.2,
    p5.1, p5.2, p6.1, p6.2, p7.1, p7.2, q2, q4, q6]

/-- Segment 2 is positive on `[8.8, 13.6]`. -/
theorem seg_two_pos_outer (x : α) (h0 : 44 / 5 ≤ x) (h1 : x ≤ 68 / 5) :
    0 < -5856641 / 2500 + 250760391 / 100000 * x - 25601719 / 25000 * x ^ 2
        + 56140683 / 250000 * x ^ 3 - 142040013 / 5000000 * x ^ 4 + 20697271 / 10000000 * x ^ 5
        - 1006351 / 12500000 * x ^ 6 + 32337 / 25000000 * x ^ 7 := by
  have e : -5856641 / 2500 + 250760391 / 100000 * x - 25601719 / 25000 * x ^ 2
        + 56140683 / 250000 * x ^ 3 - 142040013 / 5000000 * x ^ 4 + 20697271 / 10000000 * x ^ 5
        - 1006351 / 12500000 * x ^ 6 + 32337 / 25000000 * x ^ 7
      = 6562888255798 / 30517578125 + 2139650410947 / 195312500000 * (x - 56 / 5)
        + 32470167669 / 9765625000 * (x - 56 / 5) ^ 2
        - 1289600769 / 781250000 * (x - 56 / 5) ^ 3 - 239793061 / 625000000 * (x - 56 / 5) ^ 4
        + 83651099 / 1250000000 * (x - 56 / 5) ^ 5 + 1306297 / 62500000 * (x - 56 / 5) ^ 6
        + 32337 / 25000000 * (x - 56 / 5) ^ 7 := by
    ring
  have ht : |x - 56 / 5| ≤ 12 / 5 := by
    rw [abs_le]
    constructor <;> linarith
  have p1 := pow_bounds (x - 56 / 5) (12 / 5) ht 1
  have p2 := pow_bounds (x - 56 / 5) (12 / 5) ht 2
  have p3 := pow_bounds (x - 56 / 5) (12 / 5) ht 3
  have p4 := pow_bounds (x - 56 / 5) (12 / 5) ht 4
  have p5 := pow_bounds (x - 56 / 5) (12 / 5) ht 5
  have p6 := pow_bounds (x - 56 / 5) (12 / 5) ht 6
  have p7 := pow_bounds (x - 56 / 5) (12 / 5) ht 7
  have q2 : 0 ≤ (x - 56 / 5) ^ 2 := by positivity
  have q4 : 0 ≤ (x - 56 / 5) ^ 4 := by positivity
  have q6 : 0 ≤ (x - 56 / 5) ^ 6 := by positivity
  rw [e]
  generalize x - 56 / 5 = t at p1 p2 p3 p4 p5 p6 p7 q2 q4 q6 ⊢
  norm_num at p1 p2 p3 p4 p5 p6 p7
  linarith [p1.1, p1.2, p2.1, p2.2, p3.1, p3.2, p4.1, p4.2,
    p5.1, p5.2, p6.1, p6.2, p7.1, p7.2, q2, q4, q6]

/-- The value of the rotation curve is positive at every radius other than 0. -/
theorem rotation_curve_pos (r : α) (hr : r ≠ 0) : ∃ v, rotation_curve r = some v ∧ 0 < v := by
  rw [rotation_curve_eq]
  have hx : (0 : α) < min |r| 20 := lt_min (abs_pos.mpr hr) (by norm_num)
  have hx20 : min |r| 20 ≤ (20 : α) := min_le_right _ _
  generalize min |r| 20 = x at hx hx20 ⊢
  unfold segment_spec
  by_cases h1 : x < 0.765
  · rw [if_pos h1]
    refine ⟨_, vrot_at_zero x, ?_⟩
    have hq : 0 < 306981 / 100 - 79049 / 5 * x + 439801 / 10 * x ^ 2 - 682873 / 10 * x ^ 3
        + 54904 * x ^ 4 - 17731 * x ^ 5 := by
      norm_num at h1
      by_cases h : x ≤ 9 / 25
      · exact seg_zero_pos_inner x (le_of_lt hx) h
      · exact seg_zero_pos_outer x (le_of_lt (not_le.mp h)) (by linarith)
    have e : (3069.81 * x - 15809.8 * x ^ 2 + 43980.1 * x ^ 3 - 68287.3 * x ^ 4 + 54904 * x ^ 5
        - 17731 * x ^ 6 : α) = x * (306981 / 100 - 79049 / 5 * x + 439801 / 10 * x ^ 2
          - 682873 / 10 * x ^ 3 + 54904 * x ^ 4 - 17731 * x ^ 5) := by
      norm_num
      ring
    rw [e]
    exact mul_pos hx hq
  · rw [if_neg h1]
    by_cases h2 : x < 3.825
    · rw [if_pos h2]
      refine ⟨_, vrot_at_one x, ?_⟩
      norm_num at h1 h2
      have hq := seg_one_pos x (by linarith) (by linarith)
      norm_num
      linarith
    · rw [if_neg h2]
      by_cases h3 : x < 13.6
      · rw [if_pos h3]
        refine ⟨_, vrot_at_two x, ?_⟩
        norm_num at h2 h3
        by_cases h : x ≤ 44 / 5
        · have hq := seg_two_pos_inner x (by linarith) h
          norm_num
          linarith
        · have hq := seg_two_pos_outer x (le_of_lt (not_le.mp h)) (le_of_lt h3)
          norm_num
          linarith
      · rw [if_neg h3]
        exact ⟨_, vrot_at_three x, by norm_num⟩

/-- C17: the rotation speed is never negative. For every `r` the value `rotation_curve r` is
defined and not negative, and it is positive for every `r ≠ 0`: each polynomial segment is
positive on the interval of radii on which it is selected. -/
theorem C17_rotation_curve_nonneg (r : α) :
    ∃ v, rotation_curve r = some v ∧ 0 ≤ v ∧ (r ≠ 0 → 0 < v) := by
  by_cases hr : r = 0
  · subst hr
    exact ⟨0, rotation_curve_zero, le_refl _, fun h => absurd rfl h⟩
  · obtain ⟨v, hv, hpos⟩ := rotation_curve_pos r hr
    exact ⟨v, hv, le_of_lt hpos, fun _ => hpos⟩

/-- Witness of C17 at the solar radius, `r = 8.5`. -/
theorem C17_rotation_curve_nonneg_witness :
    (8.5 : ℚ) ≠ 0 ∧ ∃ v, rotation_curve (8.5 : ℚ) = some v ∧ 0 < v := by
  obtain ⟨v, hv, _, hpos⟩ := C17_rotation_curve_nonneg (8.5 : ℚ)
  exact ⟨by norm_num, v, hv, hpos (by norm_num)⟩

end Rotation

section Frequency

variable {α : Type} [LinearOrderedField α]

theorem SOL_pos : (0 : α) < SOL := by unfold SOL; norm_num

theorem FHI_pos : (0 : α) < FHI := by unfold FHI; norm_num

/-- The divisor of `freq` is positive for a velocity above `-SOL`. -/
theorem freq_divisor_pos (v : α) (hv : -SOL < v) : (0 : α) < 1.0 + v / SOL := by
  have h : -1 < v / SOL := by
    rw [lt_div_iff₀ SOL_pos]
    linarith
  have e : (1.0 : α) = 1 := by norm_num
  rw [e]
  linarith

theorem freq_lt_of_lt (v w : α) (hv : -SOL < v) (hw : v < w) : freq w < freq v := by
  unfold freq
  apply div_lt_div_of_pos_left FHI_pos (freq_divisor_pos v hv)
  have := div_lt_div_of_pos_right hw (SOL_pos : (0 : α) < SOL)
  linarith

theorem freq_inverse (v : α) (hv : -SOL < v) : v = SOL * (FHI / freq v - 1) := by
  have hd := freq_divisor_pos v hv
  have hs : (SOL : α) ≠ 0 := ne_of_gt SOL_pos
  have hf : (FHI : α) ≠ 0 := ne_of_gt FHI_pos
  unfold freq
  rw [div_div_cancel₀ hf]
  have e : (1.0 : α) = 1 := by norm_num
  rw [e]
  field_simp

/-- C4: the map `f(v) = FHI / (1 + v / c)`, with `FHI = 1.42040575e9` and `c = 299792.458`,
is strictly decreasing on `v > -c` and is inverted there by `v = c * (FHI / f(v) - 1)`. -/
theorem C4_freq_decreasing_invertible (v w : α) (hv : -SOL < v) (hw : v < w) :
    ((FHI : α) = 1.42040575e9 ∧ (SOL : α) = 299792.458)
      ∧ freq v = FHI / (1 + v / SOL)
      ∧ freq w < freq v
      ∧ v = SOL * (FHI / freq v - 1)
      ∧ w = SOL * (FHI / freq w - 1) := by
  refine ⟨⟨rfl, rfl⟩, ?_, freq_lt_of_lt v w hv hw, freq_inverse v hv,
    freq_inverse w (lt_trans hv hw)⟩
  unfold freq
  norm_num

/-- Witness of C4 at `v = -70`, `w = 70`. -/
theorem C4_freq_decreasing_invertible_witness :
    (-SOL < (-70 : ℚ) ∧ (-70 : ℚ) < 70)
      ∧ (((FHI : ℚ) = 1.42040575e9 ∧ (SOL : ℚ) = 299792.458)
        ∧ freq (-70 : ℚ) = FHI / (1 + (-70) / SOL)
        ∧ freq (70 : ℚ) < freq (-70)
        ∧ (-70 : ℚ) = SOL * (FHI / freq (-70) - 1)
        ∧ (70 : ℚ) = SOL * (FHI / freq 70 - 1)) :=
  ⟨⟨by unfold SOL; norm_num, by norm_num⟩,
    C4_freq_decreasing_invertible (-70) 70 (by unfold SOL; norm_num) (by norm_num)⟩

end Frequency

section Scan

variable {α : Type} [LinearOrderedField α]

/-- Line 103 never reads the table out of bounds: `vRad` is NaN at radius 0 and a number
elsewhere. -/
theorem vRad_eq (M : Libm α) (glon glat r : α) :
    vRad M glon glat r = if r = 0 then some Dbl.nan
      else some (Dbl.num ((rotation_curve_spec r * (RSUN / r) - rotation_curve_spec (RSUN : α))
        * M.sin glon * M.cos glat)) := by
  unfold vRad
  rw [rotation_curve_eq_spec, rotation_curve_eq_spec]

theorem scan_bound_eq : (RSUN + RMAX : α) = 0.1 * ((285 : ℕ) : α) := by
  unfold RSUN RMAX
  norm_num

theorem scan_distance_succ (k : ℕ) : (0.1 * (k : α) + 0.1 : α) = 0.1 * ((k + 1 : ℕ) : α) := by
  push_cast
  ring

theorem scan_distance_lt (k : ℕ) : (0.1 * (k : α) < RSUN + RMAX) ↔ k < 285 := by
  rw [scan_bound_eq, mul_lt_mul_left (by norm_num : (0 : α) < 0.1), Nat.cast_lt]

/-- Invariant rule for the scan loop. A property `P` of the pair `(v1, v2)` that every update
of lines 104-105 preserves holds when the loop is left, and the loop is left within 286 passes
when started at `distance = 0.1 * k`. -/
theorem scan_loop_invariant (M : Libm α) (glon glat : α) (P : α → α → Prop)
    (hstep : ∀ (k : ℕ) (v1 v2 v : α), P v1 v2 → height M glat (0.1 * (k : α)) ≤ ZDISC →
      vRad M glon glat (radius M glon glat (0.1 * (k : α))) = some (Dbl.num v) →
      P (if v < v1 then v else v1) (if v > v2 then v else v2)) :
    ∀ (fuel k : ℕ) (v1 v2 : α), k ≤ 285 → 286 ≤ k + fuel → P v1 v2 →
      ∃ a b, scan_loop M glon glat fuel (0.1 * (k : α)) v1 v2 = some (a, b) ∧ P a b := by
  intro fuel
  induction fuel with
  | zero =>
    intro k v1 v2 hk hf _
    omega
  | succ f ih =>
    intro k v1 v2 hk hf hP
    by_cases hd : 0.1 * (k : α) < RSUN + RMAX
    · have hk285 : k < 285 := (scan_distance_lt k).mp hd
      by_cases hh : height M glat (0.1 * (k : α)) > ZDISC
      · refine ⟨v1, v2, ?_, hP⟩
        simp only [scan_loop, scan_iter, if_pos hd, if_pos hh]
      · by_cases hr : radius M glon glat (0.1 * (k : α)) = 0
        · have hv : vRad M glon glat (radius M glon glat (0.1 * (k : α))) = some Dbl.nan := by
            rw [vRad_eq, if_pos hr]
          obtain ⟨a, b, hab, hPab⟩ := ih (k + 1) v1 v2 (by omega) (by omega) hP
          refine ⟨a, b, ?_, hPab⟩
          simp only [scan_loop, scan_iter, if_pos hd, if_neg hh, hv, scan_distance_succ]
          exact hab
        · obtain ⟨v, hv⟩ : ∃ v, vRad M glon glat (radius M glon glat (0.1 * (k : α)))
              = some (Dbl.num v) := by
            rw [vRad_eq, if_neg hr]
            exact ⟨_, rfl⟩
          have hP2 := hstep k v1 v2 v hP (le_of_not_lt hh) hv
          obtain ⟨a, b, hab, hPab⟩ := ih (k + 1) _ _ (by omega) (by omega) hP2
          refine ⟨a, b, ?_, hPab⟩
          simp only [scan_loop, scan_iter, if_pos hd, if_neg hh, hv, scan_distance_succ]
          exact hab
    · refine ⟨v1, v2, ?_, hP⟩
      simp only [scan_loop, scan_iter, if_neg hd]

theorem scan_start : (0.0 : α) = 0.1 * ((0 : ℕ) : α) := by norm_num

/-- Lines 109-112 put `v1` at or below `-VDEV` and `v2` at or above `VDEV`. -/
theorem deviation_bounds (v : α × α) :
    (deviation v).1 ≤ -70.0 ∧ 70.0 ≤ (deviation v).2 := by
  unfold deviation VDEV
  constructor
  · dsimp only
    split_ifs with h
    · norm_num
    · have h0 : v.1 ≤ 0 := by
        have := le_of_not_lt h
        norm_num at this
        exact this
      norm_num
      linarith
  · dsimp only
    split_ifs with h
    · norm_num
    · have h0 : 0 ≤ v.2 := by
        have := le_of_not_lt h
        norm_num at this
        exact this
      norm_num
      linarith

/-- C1: for every direction the scan followed by the post-processing produces a pair
`(v_min, v_max)` with `v_min ≤ -70.0` and `v_max ≥ 70.0`; hence 0 lies inside the range and
its width is at least 140. -/
theorem C1_velo_range_contains_margin (M : Libm α) (glon glat : α) (n : ℕ) :
    ∃ v_min v_max : α, velo_range M (286 + n) glon glat = some (v_min, v_max)
      ∧ v_min ≤ -70.0 ∧ 70.0 ≤ v_max
      ∧ (v_min ≤ 0 ∧ 0 ≤ v_max) ∧ 2 * 70 ≤ v_max - v_min := by
  obtain ⟨a, b, hab, -⟩ := scan_loop_invariant M glon glat (fun _ _ => True)
    (fun _ _ _ _ _ _ _ => trivial) (286 + n) 0 1.0e+9 (-1.0e+9) (by omega) (by omega) trivial
  rw [← scan_start] at hab
  have hb := deviation_bounds (a, b)
  refine ⟨(deviation (a, b)).1, (deviation (a, b)).2, ?_, hb.1, hb.2, ?_, ?_⟩
  · unfold velo_range
    rw [hab]
    rfl
  · have h1 := hb.1
    have h2 := hb.2
    norm_num at h1 h2
    constructor <;> linarith
  · have h1 := hb.1
    have h2 := hb.2
    norm_num at h1 h2
    linarith

/-- Under the Pythagorean identity a product of a sine and a cosine has absolute value at
most 1. -/
theorem sin_mul_cos_abs_le (M : Libm α) (hM : M.Exact) (glon glat : α) :
    |M.sin glon * M.cos glat| ≤ 1 := by
  have h1 := hM.sin_sq_add_cos_sq glon
  have h2 := hM.sin_sq_add_cos_sq glat
  rw [← sq_le_one_iff_abs_le_one]
  nlinarith [sq_nonneg (M.sin glon), sq_nonneg (M.cos glon), sq_nonneg (M.sin glat),
    sq_nonneg (M.cos glat), mul_nonneg (sq_nonneg (M.sin glon)) (sq_nonneg (M.sin glat))]

theorem radius_nonneg (M : Libm α) (hM : M.Exact) (glon glat d : α) :
    0 ≤ radius M glon glat d :=
  hM.sqrt_nonneg _

theorem radius_mul_self (M : Libm α) (hM : M.Exact) (glon glat d : α) :
    radius M glon glat d * radius M glon glat d
      = targetX M glon glat d * targetX M glon glat d
        + targetY M glon glat d * targetY M glon glat d :=
  hM.mul_self_sqrt _ (add_nonneg (mul_self_nonneg _) (mul_self_nonneg _))

/-- The line of sight stays at least `RSUN * |sin l * cos b|` away from the Galactic centre. -/
theorem radius_ge (M : Libm α) (hM : M.Exact) (glon glat d : α) :
    |RSUN * (M.sin glon * M.cos glat)| ≤ radius M glon glat d := by
  apply abs_le_of_sq_le_sq _ (radius_nonneg M hM glon glat d)
  have hr := radius_mul_self M hM glon glat d
  have h1 := hM.sin_sq_add_cos_sq glon
  have h2 := hM.sin_sq_add_cos_sq glat
  rw [sq (radius M glon glat d), hr]
  unfold targetX targetY RSUN
  have e : (8.5 : α) = 17 / 2 := by norm_num
  rw [e]
  have key : d * M.sin glon * M.cos glat * (d * M.sin glon * M.cos glat)
      + (17 / 2 - d * M.cos glon * M.cos glat) * (17 / 2 - d * M.cos glon * M.cos glat)
      - (17 / 2 * (M.sin glon * M.cos glat)) ^ 2
      = (d * M.cos glat - 17 / 2 * M.cos glon) ^ 2
        + 289 / 4 * (M.sin glon ^ 2 * M.sin glat ^ 2) := by
    linear_combination (d ^ 2 * M.cos glat ^ 2 - 289 / 4) * h1
      - 289 / 4 * M.sin glon ^ 2 * h2
  have hnn : (0 : α) ≤ (d * M.cos glat - 17 / 2 * M.cos glon) ^ 2
      + 289 / 4 * (M.sin glon ^ 2 * M.sin glat ^ 2) :=
    add_nonneg (sq_nonneg _) (mul_nonneg (by norm_num)
      (mul_nonneg (sq_nonneg _) (sq_nonneg _)))
  linarith

/-- Every radial velocity that line 103 produces is bounded by twice the bound of the
rotation curve. -/
theorem vRad_bound (M : Libm α) (hM : M.Exact) (glon glat d v : α)
    (h : vRad M glon glat (radius M glon glat d) = some (Dbl.num v)) : |v| ≤ 146000 := by
  rw [vRad_eq] at h
  by_cases hr : radius M glon glat d = 0
  · rw [if_pos hr] at h
    cases h
  · rw [if_neg hr] at h
    have hv := Dbl.num.inj (Option.some.inj h)
    have hpos : 0 < radius M glon glat d :=
      lt_of_le_of_ne (radius_nonneg M hM glon glat d) (Ne.symm hr)
    have ha := rotation_curve_spec_bound (radius M glon glat d)
    have hb := rotation_curve_spec_bound (RSUN : α)
    have hsc := sin_mul_cos_abs_le M hM glon glat
    have hq : |RSUN * (M.sin glon * M.cos glat) / radius M glon glat d| ≤ 1 := by
      rw [abs_div, abs_of_pos hpos, div_le_one hpos]
      exact radius_ge M hM glon glat d
    have e : v = rotation_curve_spec (radius M glon glat d)
          * (RSUN * (M.sin glon * M.cos glat) / radius M glon glat d)
        - rotation_curve_spec (RSUN : α) * (M.sin glon * M.cos glat) := by
      rw [← hv]
      field_simp
      ring
    rw [e]
    have t1 : |rotation_curve_spec (radius M glon glat d)
        * (RSUN * (M.sin glon * M.cos glat) / radius M glon glat d)| ≤ 73000 := by
      rw [abs_mul]
      calc |rotation_curve_spec (radius M glon glat d)|
            * |RSUN * (M.sin glon * M.cos glat) / radius M glon glat d|
          ≤ 73000 * 1 := mul_le_mul ha hq (abs_nonneg _) (by norm_num)
        _ = 73000 := by norm_num
    have t2 : |rotation_curve_spec (RSUN : α) * (M.sin glon * M.cos glat)| ≤ 73000 := by
      rw [abs_mul]
      calc |rotation_curve_spec (RSUN : α)| * |M.sin glon * M.cos glat|
          ≤ 73000 * 1 := mul_le_mul hb hsc (abs_nonneg _) (by norm_num)
        _ = 73000 := by norm_num
    calc |rotation_curve_spec (radius M glon glat d)
            * (RSUN * (M.sin glon * M.cos glat) / radius M glon glat d)
          - rotation_curve_spec (RSUN : α) * (M.sin glon * M.cos glat)|
        ≤ |rotation_curve_spec (radius M glon glat d)
            * (RSUN * (M.sin glon * M.cos glat) / radius M glon glat d)|
          + |rotation_curve_spec (RSUN : α) * (M.sin glon * M.cos glat)| := abs_sub _ _
      _ ≤ 146000 := by linarith

/-- The scan, run with enough fuel, produces a pair whose lower bound is above the negated
bound of `vRad_bound`. -/
theorem scan_loop_lower (M : Libm α) (hM : M.Exact) (glon glat : α) (n : ℕ) :
    ∃ a b, scan_loop M glon glat (286 + n) 0.0 1.0e+9 (-1.0e+9) = some (a, b)
      ∧ -146000 ≤ a := by
  obtain ⟨a, b, hab, hP⟩ := scan_loop_invariant M glon glat (fun v1 _ => -146000 ≤ v1)
    (fun k v1 v2 v hP _ hv => by
      have hb := (abs_le.mp (vRad_bound M hM glon glat _ v hv)).1
      dsimp only
      split_ifs
      · exact hb
      · exact hP)
    (286 + n) 0 1.0e+9 (-1.0e+9) (by omega) (by omega) (by norm_num)
  rw [← scan_start] at hab
  exact ⟨a, b, hab, hP⟩

theorem freq_zero : freq (0 : α) = FHI := by
  unfold freq
  norm_num

/-- The frequencies of a velocity pair on either side of 0 bracket the rest frequency. -/
theorem freq_bracket (v1 v2 : α) (h1 : -SOL < v1) (h1n : v1 < 0) (h2 : 0 < v2) :
    freq v2 < FHI ∧ FHI < freq v1 := by
  constructor
  · have := freq_lt_of_lt 0 v2 (by linarith [(SOL_pos : (0 : α) < SOL)]) h2
    rwa [freq_zero] at this
  · have := freq_lt_of_lt v1 0 h1 h1n
    rwa [freq_zero] at this

/-- The final pair for an exact library: defined, with `-SOL < v_min ≤ -70` and
`70 ≤ v_max`. -/
theorem velo_range_exact (M : Libm α) (hM : M.Exact) (glon glat : α) (n : ℕ) :
    ∃ v_min v_max : α, velo_range M (286 + n) glon glat = some (v_min, v_max)
      ∧ -SOL < v_min ∧ v_min ≤ -70.0 ∧ 70.0 ≤ v_max := by
  obtain ⟨a, b, hab, ha⟩ := scan_loop_lower M hM glon glat n
  have hb := deviation_bounds (a, b)
  refine ⟨(deviation (a, b)).1, (deviation (a, b)).2, ?_, ?_, hb.1, hb.2⟩
  · unfold velo_range
    rw [hab]
    rfl
  · unfold deviation VDEV SOL
    dsimp only
    split_ifs
    · norm_num
    · norm_num
      linarith

/-- C2: for every direction the two frequencies derived from the final velocity pair bracket
the HI rest frequency, `FHI / (1 + v_max / c) < 1.42040575e9 < FHI / (1 + v_min / c)`: the
frequency computed from `v_min` is the upper bound, the one computed from `v_max` the lower
bound. The scan keeps `v_min > -c`, so that `1 + v_min / c` is positive. -/
theorem C2_frequencies_bracket_rest (M : Libm α) (hM : M.Exact) (glon glat : α) (n : ℕ) :
    ∃ v_min v_max : α, velo_range M (286 + n) glon glat = some (v_min, v_max)
      ∧ -SOL < v_min ∧ 0 < 1 + v_min / SOL
      ∧ FHI / (1 + v_max / SOL) < (1.42040575e9 : α)
      ∧ (1.42040575e9 : α) < FHI / (1 + v_min / SOL)
      ∧ freq v_max < freq v_min := by
  obtain ⟨v1, v2, hv, h1, h2, h3⟩ := velo_range_exact M hM glon glat n
  norm_num at h2 h3
  have hb := freq_bracket v1 v2 h1 (by linarith) (by linarith)
  have hd := freq_divisor_pos v1 h1
  unfold freq FHI at hb
  norm_num at hb hd
  refine ⟨v1, v2, hv, h1, hd, ?_, ?_, ?_⟩
  · unfold FHI
    norm_num
    exact hb.1
  · unfold FHI
    norm_num
    exact hb.2
  · unfold freq FHI
    norm_num
    exact lt_trans hb.1 hb.2

/-- The final pair is defined for every library and every direction. -/
theorem velo_range_defined (M : Libm α) (glon glat : α) (n : ℕ) :
    ∃ v1 v2 : α, velo_range M (286 + n) glon glat = some (v1, v2) := by
  obtain ⟨a, b, hab, -⟩ := scan_loop_invariant M glon glat (fun _ _ => True)
    (fun _ _ _ _ _ _ _ => trivial) (286 + n) 0 1.0e+9 (-1.0e+9) (by omega) (by omega) trivial
  rw [← scan_start] at hab
  refine ⟨(deviation (a, b)).1, (deviation (a, b)).2, ?_⟩
  unfold velo_range
  rw [hab]
  rfl

/-- With three arguments `main` prints the final pair and then its two frequencies, the one
of `v2` first. -/
theorem main_of_velo_range (M : Libm α) (fuel : ℕ) (argv : List String) (v1 v2 : α)
    (hlen : argv.length = 3)
    (hv : velo_range M fuel
      (galactic M (M.M_PI * M.atof (argv.getD 1 "") / 180.0)
        (M.M_PI * M.atof (argv.getD 2 "") / 180.0)).1
      (galactic M (M.M_PI * M.atof (argv.getD 1 "") / 180.0)
        (M.M_PI * M.atof (argv.getD 2 "") / 180.0)).2 = some (v1, v2)) :
    main M fuel argv = some (0, [Line.nums v1 v2, Line.nums (freq v2) (freq v1)]) := by
  unfold main
  rw [if_neg (by simp [hlen])]
  simp only [hv]

/-- The real sine, cosine and square root are exact. -/
theorem real_libm_exact (pi : ℝ) (atof : String → ℝ) (asin : ℝ → ℝ) (atan2 : ℝ → ℝ → ℝ) :
    Libm.Exact (⟨pi, atof, Real.sin, Real.cos, asin, atan2, Real.sqrt⟩ : Libm ℝ) :=
  ⟨Real.sin_sq_add_cos_sq, Real.sqrt_nonneg, fun _ h => Real.mul_self_sqrt h⟩

/-- Witness of C2: the real library, direction `l = 0`, `b = 0`. -/
theorem C2_frequencies_bracket_rest_witness :
    Libm.Exact (⟨Real.pi, fun _ => 0, Real.sin, Real.cos, Real.arcsin,
        fun y x => Complex.arg ⟨x, y⟩, Real.sqrt⟩ : Libm ℝ)
      ∧ ∃ v_min v_max : ℝ, velo_range (⟨Real.pi, fun _ => 0, Real.sin, Real.cos, Real.arcsin,
          fun y x => Complex.arg ⟨x, y⟩, Real.sqrt⟩ : Libm ℝ) (286 + 0) 0 0
            = some (v_min, v_max)
        ∧ -SOL < v_min ∧ 0 < 1 + v_min / SOL
        ∧ FHI / (1 + v_max / SOL) < (1.42040575e9 : ℝ)
        ∧ (1.42040575e9 : ℝ) < FHI / (1 + v_min / SOL)
        ∧ freq v_max < freq v_min :=
  ⟨real_libm_exact _ _ _ _, C2_frequencies_bracket_rest _ (real_libm_exact _ _ _ _) 0 0 0⟩

/-- With three arguments and an exact library `main` succeeds and prints the frequency of
`v_max` before the frequency of `v_min`, the first being the smaller. -/
theorem main_exact (M : Libm α) (hM : M.Exact) (argv : List String) (hlen : argv.length = 3)
    (n : ℕ) :
    ∃ v_min v_max : α, main M (286 + n) argv
        = some (0, [Line.nums v_min v_max, Line.nums (freq v_max) (freq v_min)])
      ∧ freq v_max < FHI ∧ FHI < freq v_min := by
  obtain ⟨v1, v2, hv, h1, h2, h3⟩ := velo_range_exact M hM
    (galactic M (M.M_PI * M.atof (argv.getD 1 "") / 180.0)
      (M.M_PI * M.atof (argv.getD 2 "") / 180.0)).1
    (galactic M (M.M_PI * M.atof (argv.getD 1 "") / 180.0)
      (M.M_PI * M.atof (argv.getD 2 "") / 180.0)).2 n
  norm_num at h2 h3
  exact ⟨v1, v2, main_of_velo_range M _ argv v1 v2 hlen hv,
    freq_bracket v1 v2 h1 (by linarith) (by linarith)⟩

/-- C3, refuted as stated: for the position RA 266.42, Dec -28.94 (the scenario of the
specification) and the real library, the first field of the second output line is the
frequency computed from `v_max` and the second field the one computed from `v_min`, and the
first field is strictly smaller than the second, not greater or equal. -/
theorem C3_frequency_line_order_counterexample :
    ∃ v_min v_max : ℝ, main (⟨Real.pi, fun s => if s = "266.42" then 266.42 else if s = "-28.94" then -28.94 else 0,
        Real.sin, Real.cos, Real.arcsin, fun y x => Complex.arg ⟨x, y⟩, Real.sqrt⟩ : Libm ℝ)
          286 ["./velo_range", "266.42", "-28.94"]
        = some (0, [Line.nums v_min v_max, Line.nums (freq v_max) (freq v_min)])
      ∧ ¬ (freq v_max ≥ freq v_min) := by
  obtain ⟨v1, v2, hm, h1, h2⟩ := main_exact (⟨Real.pi, fun s => if s = "266.42" then 266.42 else if s = "-28.94" then -28.94 else 0,
        Real.sin, Real.cos, Real.arcsin, fun y x => Complex.arg ⟨x, y⟩, Real.sqrt⟩ : Libm ℝ)
    (real_libm_exact _ _ _ _) ["./velo_range", "266.42", "-28.94"] rfl 0
  exact ⟨v1, v2, hm, not_le.mpr (lt_trans h1 h2)⟩

/-- C3, amended: on a successful run (exactly two arguments) the second output line lists the
lower frequency bound first and the upper frequency bound second: the first field is the
frequency computed from `v_max`, the second field the frequency computed from `v_min`, and the
first field is strictly smaller than the second. -/
theorem C3_frequency_line_order (M : Libm α) (hM : M.Exact) (argv : List String)
    (hlen : argv.length = 3) (n : ℕ) :
    ∃ v_min v_max : α, main M (286 + n) argv
        = some (0, [Line.nums v_min v_max, Line.nums (freq v_max) (freq v_min)])
      ∧ freq v_max < freq v_min := by
  obtain ⟨v1, v2, hm, h1, h2⟩ := main_exact M hM argv hlen n
  exact ⟨v1, v2, hm, lt_trans h1 h2⟩

/-- Witness of the amended C3: the real library and the arguments `0 0`. -/
theorem C3_frequency_line_order_witness :
    (Libm.Exact (⟨Real.pi, fun _ => 0, Real.sin, Real.cos, Real.arcsin,
          fun y x => Complex.arg ⟨x, y⟩, Real.sqrt⟩ : Libm ℝ)
        ∧ ["./velo_range", "0", "0"].length = 3)
      ∧ ∃ v_min v_max : ℝ, main (⟨Real.pi, fun _ => 0, Real.sin, Real.cos, Real.arcsin,
            fun y x => Complex.arg ⟨x, y⟩, Real.sqrt⟩ : Libm ℝ) (286 + 0)
            ["./velo_range", "0", "0"]
          = some (0, [Line.nums v_min v_max, Line.nums (freq v_max) (freq v_min)])
        ∧ freq v_max < freq v_min :=
  ⟨⟨real_libm_exact _ _ _ _, rfl⟩,
    C3_frequency_line_order _ (real_libm_exact _ _ _ _) ["./velo_range", "0", "0"] rfl 0⟩

/-- C9: `main` fails exactly when the argument count is wrong. For an argument vector whose
length is not 3 it returns the non-zero status 1 and writes the usage message and nothing
else; for an argument vector of length 3 it returns 0 and writes exactly two lines of two
numbers, the velocities and then their frequencies, whatever the argument strings are. -/
theorem C9_main_argument_count (M : Libm α) (argv : List String) (fuel n : ℕ) :
    (argv.length ≠ 3 →
        main M fuel argv = some (1, [Line.text "Usage: ./velo_range <ra> <dec>\n"])
          ∧ (1 : Int) ≠ 0)
      ∧ (argv.length = 3 →
        ∃ v1 v2 : α, main M (286 + n) argv
          = some (0, [Line.nums v1 v2, Line.nums (freq v2) (freq v1)])) := by
  constructor
  · intro h
    unfold main
    rw [if_pos h]
    exact ⟨rfl, by decide⟩
  · intro h
    obtain ⟨v1, v2, hv⟩ := velo_range_defined M
      (galactic M (M.M_PI * M.atof (argv.getD 1 "") / 180.0)
        (M.M_PI * M.atof (argv.getD 2 "") / 180.0)).1
      (galactic M (M.M_PI * M.atof (argv.getD 1 "") / 180.0)
        (M.M_PI * M.atof (argv.getD 2 "") / 180.0)).2 n
    exact ⟨v1, v2, main_of_velo_range M _ argv v1 v2 h hv⟩

/-- Witness of C9: no argument, and the two arguments `0 0`, with the real library. -/
theorem C9_main_argument_count_witness :
    (["./velo_range"].length ≠ 3 ∧ ["./velo_range", "0", "0"].length = 3)
      ∧ (main (⟨Real.pi, fun _ => 0, Real.sin, Real.cos, Real.arcsin,
            fun y x => Complex.arg ⟨x, y⟩, Real.sqrt⟩ : Libm ℝ) 0 ["./velo_range"]
          = some (1, [Line.text "Usage: ./velo_range <ra> <dec>\n"]) ∧ (1 : Int) ≠ 0)
      ∧ ∃ v1 v2 : ℝ, main (⟨Real.pi, fun _ => 0, Real.sin, Real.cos, Real.arcsin,
            fun y x => Complex.arg ⟨x, y⟩, Real.sqrt⟩ : Libm ℝ) (286 + 0)
            ["./velo_range", "0", "0"]
          = some (0, [Line.nums v1 v2, Line.nums (freq v2) (freq v1)]) :=
  ⟨⟨by decide, by decide⟩,
    (C9_main_argument_count _ ["./velo_range"] 0 0).1 (by decide),
    (C9_main_argument_count _ ["./velo_range", "0", "0"] 0 0).2 (by decide)⟩

/-- With `sin l * cos b = 0` every number that line 103 produces is 0. -/
theorem vRad_zero_of_meridian (M : Libm α) (glon glat : α)
    (h : M.sin glon * M.cos glat = 0) (r v : α)
    (hv : vRad M glon glat r = some (Dbl.num v)) : v = 0 := by
  rw [vRad_eq] at hv
  by_cases hr : r = 0
  · rw [if_pos hr] at hv
    cases hv
  · rw [if_neg hr] at hv
    rw [← Dbl.num.inj (Option.some.inj hv), mul_assoc, h, mul_zero]

/-- With `sin l * cos b = 0` the final pair is `(-70, 70)`. -/
theorem velo_range_meridian (M : Libm α) (glon glat : α)
    (h : M.sin glon * M.cos glat = 0) (n : ℕ) :
    velo_range M (286 + n) glon glat = some (-70.0, 70.0) := by
  obtain ⟨a, b, hab, ha, hb⟩ := scan_loop_invariant M glon glat
    (fun v1 v2 => (v1 = 1.0e+9 ∨ v1 = 0) ∧ (v2 = -1.0e+9 ∨ v2 = 0))
    (fun k v1 v2 v hP _ hv => by
      have h0 := vRad_zero_of_meridian M glon glat h _ v hv
      subst h0
      obtain ⟨h1, h2⟩ := hP
      constructor
      · right
        rcases h1 with h1 | h1 <;> rw [h1] <;> norm_num
      · right
        rcases h2 with h2 | h2 <;> rw [h2] <;> norm_num)
    (286 + n) 0 1.0e+9 (-1.0e+9) (by omega) (by omega) ⟨Or.inl rfl, Or.inl rfl⟩
  rw [← scan_start] at hab
  unfold velo_range
  rw [hab]
  unfold deviation VDEV
  rcases ha with ha | ha <;> rcases hb with hb | hb <;> rw [ha, hb] <;> norm_num

end Scan

section Loop

variable {α : Type} [LinearOrderedField α]

/-- A pass that runs the body to its end started below the bound and inside the disc, advanced
`distance` by 0.1, and left `v1` no larger and `v2` no smaller. -/
theorem scan_iter_next (M : Libm α) (glon glat d v1 v2 d' a b : α)
    (h : scan_iter M glon glat d v1 v2 = some (Iter.next d' a b)) :
    d' = d + 0.1 ∧ d < RSUN + RMAX ∧ height M glat d ≤ ZDISC ∧ a ≤ v1 ∧ v2 ≤ b := by
  unfold scan_iter at h
  by_cases hd : d < RSUN + RMAX
  · rw [if_pos hd] at h
    by_cases hh : height M glat d > ZDISC
    · rw [if_pos hh] at h
      cases h
    · rw [if_neg hh, vRad_eq] at h
      by_cases hr : radius M glon glat d = 0
      · rw [if_pos hr] at h
        simp only [Option.some.injEq, Iter.next.injEq] at h
        obtain ⟨h1, h2, h3⟩ := h
        exact ⟨h1.symm, hd, le_of_not_lt hh, le_of_eq h2.symm, le_of_eq h3⟩
      · rw [if_neg hr] at h
        simp only [Option.some.injEq, Iter.next.injEq] at h
        obtain ⟨h1, h2, h3⟩ := h
        refine ⟨h1.symm, hd, le_of_not_lt hh, ?_, ?_⟩
        · rw [← h2]
          split_ifs with hc
          · exact le_of_lt hc
          · exact le_refl _
        · rw [← h3]
          split_ifs with hc
          · exact le_of_lt hc
          · exact le_refl _
  · rw [if_neg hd] at h
    cases h

/-- A pass that leaves the loop leaves `v1` and `v2` as they are. -/
theorem scan_iter_bounds (M : Libm α) (glon glat d v1 v2 : α) (it : Iter α)
    (h : scan_iter M glon glat d v1 v2 = some it) :
    it.bounds.1 ≤ v1 ∧ v2 ≤ it.bounds.2 := by
  cases it with
  | next d' a b =>
    obtain ⟨-, -, -, h1, h2⟩ := scan_iter_next M glon glat d v1 v2 d' a b h
    exact ⟨h1, h2⟩
  | done a b =>
    unfold scan_iter at h
    by_cases hd : d < RSUN + RMAX
    · rw [if_pos hd] at h
      by_cases hh : height M glat d > ZDISC
      · rw [if_pos hh] at h
        cases h
      · rw [if_neg hh, vRad_eq] at h
        split_ifs at h <;> simp at h
    · rw [if_neg hd] at h
      simp only [Option.some.injEq, Iter.done.injEq] at h
      exact ⟨le_of_eq h.1.symm, le_of_eq h.2⟩
  | brk a b =>
    unfold scan_iter at h
    by_cases hd : d < RSUN + RMAX
    · rw [if_pos hd] at h
      by_cases hh : height M glat d > ZDISC
      · rw [if_pos hh] at h
        simp only [Option.some.injEq, Iter.brk.injEq] at h
        exact ⟨le_of_eq h.1.symm, le_of_eq h.2⟩
      · rw [if_neg hh, vRad_eq] at h
        split_ifs at h <;> simp at h
    · rw [if_neg hd] at h
      cases h

/-- The state after one more pass, from the state before it. -/
theorem scan_after_succ (M : Libm α) (glon glat : α) (k : ℕ) (t : Iter α)
    (h : scan_after M glon glat (k + 1) = some t) :
    (∃ d v1 v2, scan_after M glon glat k = some (Iter.next d v1 v2)
        ∧ scan_iter M glon glat d v1 v2 = some t)
      ∨ (scan_after M glon glat k = some t ∧ ∀ d v1 v2, t ≠ Iter.next d v1 v2) := by
  rw [scan_after] at h
  cases hs : scan_after M glon glat k with
  | none =>
    rw [hs] at h
    cases h
  | some s =>
    rw [hs] at h
    cases s with
    | next d v1 v2 => exact Or.inl ⟨d, v1, v2, rfl, h⟩
    | done a b =>
      simp only [Option.some.injEq] at h
      subst h
      exact Or.inr ⟨rfl, fun _ _ _ hc => by cases hc⟩
    | brk a b =>
      simp only [Option.some.injEq] at h
      subst h
      exact Or.inr ⟨rfl, fun _ _ _ hc => by cases hc⟩

/-- One pass never narrows the pair `(v1, v2)`. -/
theorem scan_after_step_bounds (M : Libm α) (glon glat : α) (k : ℕ) (s t : Iter α)
    (hs : scan_after M glon glat k = some s) (ht : scan_after M glon glat (k + 1) = some t) :
    t.bounds.1 ≤ s.bounds.1 ∧ s.bounds.2 ≤ t.bounds.2 := by
  rcases scan_after_succ M glon glat k t ht with ⟨d, v1, v2, hs', hi⟩ | ⟨hs', -⟩
  · rw [hs] at hs'
    cases hs'
    exact scan_iter_bounds M glon glat d v1 v2 t hi
  · rw [hs] at hs'
    cases hs'
    exact ⟨le_refl _, le_refl _⟩

/-- No number of passes narrows the pair `(v1, v2)`. -/
theorem scan_after_bounds (M : Libm α) (glon glat : α) (j m : ℕ) (s t : Iter α)
    (hs : scan_after M glon glat j = some s) (ht : scan_after M glon glat (j + m) = some t) :
    t.bounds.1 ≤ s.bounds.1 ∧ s.bounds.2 ≤ t.bounds.2 := by
  induction m generalizing t with
  | zero =>
    rw [Nat.add_zero, hs] at ht
    cases ht
    exact ⟨le_refl _, le_refl _⟩
  | succ m ih =>
    cases hu : scan_after M glon glat (j + m) with
    | none =>
      have : scan_after M glon glat (j + m + 1) = none := by
        rw [scan_after, hu]
      rw [← Nat.add_assoc, this] at ht
      cases ht
    | some u =>
      obtain ⟨h1, h2⟩ := ih u hu
      obtain ⟨h3, h4⟩ := scan_after_step_bounds M glon glat (j + m) u t hu ht
      exact ⟨le_trans h3 h1, le_trans h2 h4⟩

/-- Lines 109-112 never raise `v1` and never lower `v2`. -/
theorem deviation_widens (v : α × α) : (deviation v).1 ≤ v.1 ∧ v.2 ≤ (deviation v).2 := by
  unfold deviation VDEV
  dsimp only
  constructor
  · split_ifs with h
    · norm_num at h ⊢
      linarith
    · norm_num
  · split_ifs with h
    · norm_num at h ⊢
      linarith
    · norm_num

/-- C16: the velocity range is only ever widened. Every pass through the loop leaves `v1` no
larger and `v2` no smaller than it found them, so does every run of passes from one state of
the loop to a later one, and so do the clamp to 0 and the margin of 70.0 of lines 109-112. -/
theorem C16_range_only_widened (M : Libm α) (glon glat : α) :
    (∀ (d v1 v2 : α) (it : Iter α), scan_iter M glon glat d v1 v2 = some it →
        it.bounds.1 ≤ v1 ∧ v2 ≤ it.bounds.2)
      ∧ (∀ (j k : ℕ) (s t : Iter α), j ≤ k → scan_after M glon glat j = some s →
        scan_after M glon glat k = some t → t.bounds.1 ≤ s.bounds.1 ∧ s.bounds.2 ≤ t.bounds.2)
      ∧ (∀ v : α × α, (deviation v).1 ≤ v.1 ∧ v.2 ≤ (deviation v).2) := by
  refine ⟨fun d v1 v2 it h => scan_iter_bounds M glon glat d v1 v2 it h, ?_, deviation_widens⟩
  intro j k s t hjk hs ht
  obtain ⟨m, rfl⟩ := Nat.exists_eq_add_of_le hjk
  exact scan_after_bounds M glon glat j m s t hs ht

theorem height_zero_of_sin (M : Libm α) (glat d : α) (h : M.sin glat = 0) :
    height M glat d = 0 := by
  unfold height
  rw [h, abs_zero, mul_zero]

theorem ZDISC_nonneg : (0 : α) ≤ ZDISC := by
  unfold ZDISC
  norm_num

/-- An exact square root of a square is the absolute value. -/
theorem sqrt_mul_self_eq_abs (M : Libm α) (hM : M.Exact) (y : α) : M.sqrt (y * y) = |y| := by
  have h0 := hM.sqrt_nonneg (y * y)
  have h1 := hM.mul_self_sqrt (y * y) (mul_self_nonneg y)
  rcases mul_self_eq_mul_self_iff.mp h1 with h | h
  · rw [h, abs_of_nonneg (h ▸ h0)]
  · rw [h, abs_of_nonpos]
    have := h ▸ h0
    linarith

/-- The first sample, at distance 0, lies at the solar radius. -/
theorem radius_at_zero (M : Libm α) (hM : M.Exact) (glon glat : α) :
    radius M glon glat 0 = RSUN := by
  unfold radius targetX targetY
  have e : (0 : α) * M.sin glon * M.cos glat * (0 * M.sin glon * M.cos glat)
      + (RSUN - 0 * M.cos glon * M.cos glat) * (RSUN - 0 * M.cos glon * M.cos glat)
      = RSUN * RSUN := by ring
  rw [e, sqrt_mul_self_eq_abs M hM, abs_of_nonneg]
  unfold RSUN
  norm_num

theorem radius_pos_of_off_meridian (M : Libm α) (hM : M.Exact) (glon glat d : α)
    (h : M.sin glon * M.cos glat ≠ 0) : 0 < radius M glon glat d := by
  have h1 := radius_ge M hM glon glat d
  have h2 : 0 < |RSUN * (M.sin glon * M.cos glat)| :=
    abs_pos.mpr (mul_ne_zero (by unfold RSUN; norm_num) h)
  linarith

/-- C15: off the centre-anticentre meridian the division `RSUN / radius` is never a division
by zero. For every direction with `sin l * cos b ≠ 0` and every distance `d` (in particular
every sample `d = 0.1 * k`) the Galactocentric radius is strictly positive: it is 8.5 at
`d = 0`, and `targetX ≠ 0` for `d ≠ 0`; line 103 then yields a number. -/
theorem C15_radius_positive (M : Libm α) (hM : M.Exact) (glon glat : α)
    (h : M.sin glon * M.cos glat ≠ 0) (d : α) (k : ℕ) :
    0 < radius M glon glat d
      ∧ 0 < radius M glon glat (0.1 * (k : α))
      ∧ radius M glon glat 0 = 8.5
      ∧ (d ≠ 0 → targetX M glon glat d ≠ 0)
      ∧ (∃ v, vRad M glon glat (radius M glon glat d) = some (Dbl.num v)) := by
  have hpos := radius_pos_of_off_meridian M hM glon glat d h
  refine ⟨hpos, radius_pos_of_off_meridian M hM glon glat _ h, radius_at_zero M hM glon glat,
    fun hd => ?_, ?_⟩
  · unfold targetX
    rw [mul_assoc]
    exact mul_ne_zero hd h
  · rw [vRad_eq, if_neg (ne_of_gt hpos)]
    exact ⟨_, rfl⟩

/-- Witness of C15: the real library, direction `l = π / 2`, `b = 0`, sample `k = 85`. -/
theorem C15_radius_positive_witness :
    (Libm.Exact (⟨Real.pi, fun _ => 0, Real.sin, Real.cos, Real.arcsin,
          fun y x => Complex.arg ⟨x, y⟩, Real.sqrt⟩ : Libm ℝ)
        ∧ Real.sin (Real.pi / 2) * Real.cos 0 ≠ 0)
      ∧ 0 < radius (⟨Real.pi, fun _ => 0, Real.sin, Real.cos, Real.arcsin,
          fun y x => Complex.arg ⟨x, y⟩, Real.sqrt⟩ : Libm ℝ) (Real.pi / 2) 0
          (0.1 * ((85 : ℕ) : ℝ)) :=
  ⟨⟨real_libm_exact _ _ _ _, by simp⟩,
    (C15_radius_positive _ (real_libm_exact _ _ _ _) (Real.pi / 2) 0 (by simp) 0 85).2.1⟩

/-- The first sample contributes the radial velocity 0. -/
theorem vRad_at_zero (M : Libm α) (hM : M.Exact) (glon glat : α) :
    vRad M glon glat (radius M glon glat 0) = some (Dbl.num 0) := by
  have hR : (RSUN : α) ≠ 0 := by unfold RSUN; norm_num
  rw [radius_at_zero M hM, vRad_eq, if_neg hR, div_self hR]
  congr 2
  ring

theorem height_at_zero (M : Libm α) (glat : α) : height M glat 0 = 0 := by
  unfold height
  rw [zero_mul]

/-- The first pass of the loop: the sample at distance 0 is processed and replaces both
sentinel values by 0. -/
theorem scan_iter_first (M : Libm α) (hM : M.Exact) (glon glat : α) :
    scan_iter M glon glat 0.0 1.0e+9 (-1.0e+9) = some (Iter.next 0.1 0 0) := by
  have e0 : (0.0 : α) = 0 := by norm_num
  have hd : (0 : α) < RSUN + RMAX := by unfold RSUN RMAX; norm_num
  have hh : ¬ height M glat 0 > ZDISC := by
    rw [height_at_zero]
    exact not_lt.mpr ZDISC_nonneg
  rw [e0]
  unfold scan_iter
  rw [if_pos hd, if_neg hh, vRad_at_zero M hM]
  norm_num

/-- Toward the Galactic centre the Galactocentric radius at distance `d` is `|8.5 - d|`. -/
theorem radius_toward_centre (M : Libm α) (hM : M.Exact) (hs : M.sin 0 = 0) (hc : M.cos 0 = 1)
    (d : α) : radius M 0 0 d = |8.5 - d| := by
  unfold radius targetX targetY RSUN
  rw [hs, hc]
  have e : d * 0 * 1 * (d * 0 * 1) + (8.5 - d * 1 * 1) * (8.5 - d * 1 * 1)
      = (8.5 - d) * (8.5 - d) := by ring
  rw [e, sqrt_mul_self_eq_abs M hM]

/-- The mirror direction has the same Galactocentric radius at every distance. -/
theorem radius_mirror (M : Libm α) (glon glat d : α)
    (hsin : M.sin (-glon) = -M.sin glon) (hcos : M.cos (-glon) = M.cos glon) :
    radius M (-glon) glat d = radius M glon glat d := by
  unfold radius targetX targetY
  rw [hsin, hcos]
  congr 1
  ring

/-- The mirror direction has the opposite radial velocity at every radius, and a NaN where the
direction has one. -/
theorem vRad_mirror (M : Libm α) (glon glat r : α) (hsin : M.sin (-glon) = -M.sin glon) :
    vRad M (-glon) glat r = if r = 0 then some Dbl.nan
      else some (Dbl.num (-((rotation_curve_spec r * (RSUN / r) - rotation_curve_spec (RSUN : α))
        * M.sin glon * M.cos glat))) := by
  rw [vRad_eq, hsin]
  split_ifs
  · rfl
  · congr 2
    ring

theorem neg_update_lower (v w : α) :
    (if -v < -w then -v else -w) = -(if v > w then v else w) := by
  split_ifs with h1 h2 h2
  · rfl
  · exact absurd (neg_lt_neg_iff.mp h1) h2
  · exact absurd (neg_lt_neg_iff.mpr h2) h1
  · rfl

theorem neg_update_upper (v w : α) :
    (if -v > -w then -v else -w) = -(if v < w then v else w) := by
  split_ifs with h1 h2 h2
  · rfl
  · exact absurd (neg_lt_neg_iff.mp h1) h2
  · exact absurd (neg_lt_neg_iff.mpr h2) h1
  · rfl

/-- The loop run toward the mirror direction from the mirrored bounds ends with the mirrored
result. -/
theorem scan_loop_mirror (M : Libm α) (glon glat : α)
    (hsin : M.sin (-glon) = -M.sin glon) (hcos : M.cos (-glon) = M.cos glon) :
    ∀ (fuel : ℕ) (d v1 v2 : α), scan_loop M (-glon) glat fuel d (-v2) (-v1)
      = (scan_loop M glon glat fuel d v1 v2).map (fun p => (-p.2, -p.1)) := by
  intro fuel
  induction fuel with
  | zero =>
    intro d v1 v2
    rfl
  | succ f ih =>
    intro d v1 v2
    by_cases hd : d < RSUN + RMAX
    · by_cases hh : height M glat d > ZDISC
      · simp only [scan_loop, scan_iter, if_pos hd, if_pos hh, Option.map_some']
      · by_cases hr : radius M glon glat d = 0
        · simp only [scan_loop, scan_iter, if_pos hd, if_neg hh,
            radius_mirror M glon glat d hsin hcos, vRad_mirror M glon glat _ hsin, vRad_eq,
            if_pos hr]
          exact ih _ _ _
        · simp only [scan_loop, scan_iter, if_pos hd, if_neg hh,
            radius_mirror M glon glat d hsin hcos, vRad_mirror M glon glat _ hsin, vRad_eq,
            if_neg hr, neg_update_lower, neg_update_upper]
          exact ih _ _ _
    · simp only [scan_loop, scan_iter, if_neg hd, Option.map_some']

/-- Lines 109-112 commute with the mirror of a pair. -/
theorem deviation_mirror (a b : α) :
    deviation (-b, -a) = (-(deviation (a, b)).2, -(deviation (a, b)).1) := by
  unfold deviation
  dsimp only
  have e1 : (-b > (0.0 : α)) ↔ b < 0.0 := by norm_num
  have e2 : (-a < (0.0 : α)) ↔ a > 0.0 := by norm_num
  simp only [e1, e2]
  ext
  · dsimp only
    split_ifs <;> norm_num
    ring
  · dsimp only
    split_ifs <;> norm_num
    ring

/-- The final pair of the mirror direction is the mirrored final pair. -/
theorem velo_range_mirror (M : Libm α) (glon glat : α)
    (hsin : M.sin (-glon) = -M.sin glon) (hcos : M.cos (-glon) = M.cos glon) (fuel : ℕ) :
    velo_range M fuel (-glon) glat
      = (velo_range M fuel glon glat).map (fun p => (-p.2, -p.1)) := by
  unfold velo_range
  have e1 : (1.0e+9 : α) = -(-1.0e+9) := by norm_num
  have h := scan_loop_mirror M glon glat hsin hcos fuel 0.0 1.0e+9 (-1.0e+9)
  rw [← e1] at h
  rw [h]
  cases scan_loop M glon glat fuel 0.0 1.0e+9 (-1.0e+9) with
  | none => rfl
  | some p =>
    obtain ⟨a, b⟩ := p
    simp only [Option.map_some', deviation_mirror]

/-- C19: mirror symmetry of the scanner in Galactic longitude. For every `l` and `b`, every
sample of the direction `(-l, b)` has the height and the radius of the sample of `(l, b)` at
the same distance and the opposite radial velocity; hence, if the final velocity range for
`(l, b)` is `(v_min, v_max)`, the final velocity range for `(-l, b)` is `(-v_max, -v_min)`. -/
theorem C19_mirror_symmetry (M : Libm α) (glon glat : α)
    (hsin : M.sin (-glon) = -M.sin glon) (hcos : M.cos (-glon) = M.cos glon) (n : ℕ) :
    (∀ d : α, radius M (-glon) glat d = radius M glon glat d
        ∧ ∀ v, vRad M glon glat (radius M glon glat d) = some (Dbl.num v) →
          vRad M (-glon) glat (radius M (-glon) glat d) = some (Dbl.num (-v)))
      ∧ (∀ (fuel : ℕ) (v_min v_max : α), velo_range M fuel glon glat = some (v_min, v_max) →
          velo_range M fuel (-glon) glat = some (-v_max, -v_min))
      ∧ ∃ v_min v_max : α, velo_range M (286 + n) glon glat = some (v_min, v_max)
          ∧ velo_range M (286 + n) (-glon) glat = some (-v_max, -v_min) := by
  have hmain : ∀ (fuel : ℕ) (v_min v_max : α),
      velo_range M fuel glon glat = some (v_min, v_max) →
        velo_range M fuel (-glon) glat = some (-v_max, -v_min) := by
    intro fuel a b h
    rw [velo_range_mirror M glon glat hsin hcos, h]
    rfl
  refine ⟨fun d => ⟨radius_mirror M glon glat d hsin hcos, fun v hv => ?_⟩, hmain, ?_⟩
  · rw [radius_mirror M glon glat d hsin hcos, vRad_mirror M glon glat _ hsin]
    rw [vRad_eq] at hv
    by_cases hr : radius M glon glat d = 0
    · rw [if_pos hr] at hv
      cases hv
    · rw [if_neg hr] at hv ⊢
      rw [← Dbl.num.inj (Option.some.inj hv)]
  · obtain ⟨a, b, hab⟩ := velo_range_defined M glon glat n
    exact ⟨a, b, hab, hmain _ a b hab⟩

/-- Witness of C19: the real library, direction `l = 1`, `b = 1`. -/
theorem C19_mirror_symmetry_witness :
    (Real.sin (-1) = -Real.sin 1 ∧ Real.cos (-1) = Real.cos 1)
      ∧ ∃ v_min v_max : ℝ, velo_range (⟨Real.pi, fun _ => 0, Real.sin, Real.cos, Real.arcsin,
            fun y x => Complex.arg ⟨x, y⟩, Real.sqrt⟩ : Libm ℝ) (286 + 0) 1 1
          = some (v_min, v_max)
        ∧ velo_range (⟨Real.pi, fun _ => 0, Real.sin, Real.cos, Real.arcsin,
            fun y x => Complex.arg ⟨x, y⟩, Real.sqrt⟩ : Libm ℝ) (286 + 0) (-1) 1
          = some (-v_max, -v_min) :=
  ⟨⟨Real.sin_neg 1, Real.cos_neg 1⟩,
    (C19_mirror_symmetry (⟨Real.pi, fun _ => 0, Real.sin, Real.cos, Real.arcsin,
      fun y x => Complex.arg ⟨x, y⟩, Real.sqrt⟩ : Libm ℝ) 1 1 (Real.sin_neg 1) (Real.cos_neg 1)
      0).2.2⟩

/-- The argument of `asin` at line 87 lies between -1 and 1. -/
theorem asin_argument_bound (M : Libm α) (hM : M.Exact) (delta d0 x : α) :
    |M.sin delta * M.sin d0 + M.cos delta * M.cos d0 * M.cos x| ≤ 1 := by
  have h1 := hM.sin_sq_add_cos_sq delta
  have h0 := hM.sin_sq_add_cos_sq d0
  have hx := hM.sin_sq_add_cos_sq x
  rw [← sq_le_one_iff_abs_le_one]
  have key : 1 - (M.sin delta * M.sin d0 + M.cos delta * M.cos d0 * M.cos x) ^ 2
      = (M.sin delta * M.cos d0 - M.cos delta * M.sin d0 * M.cos x) ^ 2
        + M.cos delta ^ 2 * M.sin x ^ 2 := by
    linear_combination (-(M.sin d0 ^ 2 + M.cos d0 ^ 2)) * h1
      + (M.cos delta ^ 2 * (1 - M.cos x ^ 2) - 1) * h0 - M.cos delta ^ 2 * hx
  have hnn : (0 : α) ≤ (M.sin delta * M.cos d0 - M.cos delta * M.sin d0 * M.cos x) ^ 2
      + M.cos delta ^ 2 * M.sin x ^ 2 :=
    add_nonneg (sq_nonneg _) (mul_nonneg (sq_nonneg _) (sq_nonneg _))
  linarith

/-- C12: the coordinate transform is well-defined for every real right ascension `alpha` and
declination `delta`. The argument of `asin` at line 87 lies in `[-1, 1]`, so the Galactic
latitude lies in `[-π/2, π/2]` and its sine is that argument; at the pole direction
(`alpha = a0`, `delta = d0`) the latitude is exactly `π/2`. -/
theorem C12_latitude_well_defined (alpha delta : ℝ) :
    (-1 ≤ Real.sin delta * Real.sin (27.128353 * Real.pi / 180.0)
          + Real.cos delta * Real.cos (27.128353 * Real.pi / 180.0)
            * Real.cos (alpha - 192.859496 * Real.pi / 180.0)
        ∧ Real.sin delta * Real.sin (27.128353 * Real.pi / 180.0)
          + Real.cos delta * Real.cos (27.128353 * Real.pi / 180.0)
            * Real.cos (alpha - 192.859496 * Real.pi / 180.0) ≤ 1)
      ∧ (galactic (⟨Real.pi, fun _ => 0, Real.sin, Real.cos, Real.arcsin,
          fun y x => Complex.arg ⟨x, y⟩, Real.sqrt⟩ : Libm ℝ) alpha delta).2
        = Real.arcsin (Real.sin delta * Real.sin (27.128353 * Real.pi / 180.0)
          + Real.cos delta * Real.cos (27.128353 * Real.pi / 180.0)
            * Real.cos (alpha - 192.859496 * Real.pi / 180.0))
      ∧ (-(Real.pi / 2) ≤ (galactic (⟨Real.pi, fun _ => 0, Real.sin, Real.cos, Real.arcsin,
          fun y x => Complex.arg ⟨x, y⟩, Real.sqrt⟩ : Libm ℝ) alpha delta).2
        ∧ (galactic (⟨Real.pi, fun _ => 0, Real.sin, Real.cos, Real.arcsin,
          fun y x => Complex.arg ⟨x, y⟩, Real.sqrt⟩ : Libm ℝ) alpha delta).2 ≤ Real.pi / 2)
      ∧ Real.sin (galactic (⟨Real.pi, fun _ => 0, Real.sin, Real.cos, Real.arcsin,
          fun y x => Complex.arg ⟨x, y⟩, Real.sqrt⟩ : Libm ℝ) alpha delta).2
        = Real.sin delta * Real.sin (27.128353 * Real.pi / 180.0)
          + Real.cos delta * Real.cos (27.128353 * Real.pi / 180.0)
            * Real.cos (alpha - 192.859496 * Real.pi / 180.0)
      ∧ (galactic (⟨Real.pi, fun _ => 0, Real.sin, Real.cos, Real.arcsin,
          fun y x => Complex.arg ⟨x, y⟩, Real.sqrt⟩ : Libm ℝ)
          (192.859496 * Real.pi / 180.0) (27.128353 * Real.pi / 180.0)).2 = Real.pi / 2 := by
  have hb := abs_le.mp (asin_argument_bound (⟨Real.pi, fun _ => 0, Real.sin, Real.cos,
    Real.arcsin, fun y x => Complex.arg ⟨x, y⟩, Real.sqrt⟩ : Libm ℝ) (real_libm_exact _ _ _ _)
    delta (27.128353 * Real.pi / 180.0) (alpha - 192.859496 * Real.pi / 180.0))
  refine ⟨hb, rfl, ⟨Real.neg_pi_div_two_le_arcsin _, Real.arcsin_le_pi_div_two _⟩,
    Real.sin_arcsin hb.1 hb.2, ?_⟩
  unfold galactic
  simp only [sub_self, Real.cos_zero, mul_one]
  have e : Real.sin (27.128353 * Real.pi / 180.0) * Real.sin (27.128353 * Real.pi / 180.0)
      + Real.cos (27.128353 * Real.pi / 180.0) * Real.cos (27.128353 * Real.pi / 180.0) = 1 := by
    have := Real.sin_sq_add_cos_sq (27.128353 * Real.pi / 180.0)
    rw [sq, sq] at this
    exact this
  rw [e, Real.arcsin_one]

end Loop

section Passes

variable {α : Type} [LinearOrderedField α]

/-- Line 103 never reads the table out of bounds, also for NaN operands. -/
theorem vRad_d_total (M : Libm α) (glon glat r : Dbl α) : ∃ w, vRad_d M glon glat r = some w := by
  cases glon <;> cases glat <;> cases r <;> simp only [vRad_d] <;> first
    | exact ⟨_, rfl⟩
    | (rw [vRad_eq]; split_ifs <;> exact ⟨_, rfl⟩)

/-- For numbers as angles the NaN-aware quantities are the plain ones. -/
theorem vRad_d_num (M : Libm α) (l b d : α) :
    vRad_d M (Dbl.num l) (Dbl.num b) (radius_d M (Dbl.num l) (Dbl.num b) d)
      = vRad M l b (radius M l b d) := rfl

theorem gt_height_num (M : Libm α) (b d : α) :
    (Dbl.gt (height_d M (Dbl.num b) d) ZDISC = true) ↔ height M b d > ZDISC := by
  simp only [height_d, Dbl.gt, decide_eq_true_eq]

/-- For numbers as angles and the exact increment a pass is `scan_iter`. -/
theorem scan_pass_num (M : Libm α) (l b d v1 v2 : α) :
    scan_pass M (Dbl.num l) (Dbl.num b) d (d + 0.1) v1 v2 = scan_iter M l b d v1 v2 := by
  unfold scan_pass scan_iter
  simp only [gt_height_num, vRad_d_num]

/-- The outcomes of a pass. -/
theorem scan_pass_spec (M : Libm α) (glon glat : Dbl α) (d nxt v1 v2 : α) :
    (¬ d < RSUN + RMAX ∧ scan_pass M glon glat d nxt v1 v2 = some (Iter.done v1 v2))
      ∨ (d < RSUN + RMAX ∧ Dbl.gt (height_d M glat d) ZDISC = true
          ∧ scan_pass M glon glat d nxt v1 v2 = some (Iter.brk v1 v2))
      ∨ (d < RSUN + RMAX ∧ Dbl.gt (height_d M glat d) ZDISC = false
          ∧ vRad_d M glon glat (radius_d M glon glat d) = some Dbl.nan
          ∧ scan_pass M glon glat d nxt v1 v2 = some (Iter.next nxt v1 v2))
      ∨ (d < RSUN + RMAX ∧ Dbl.gt (height_d M glat d) ZDISC = false
          ∧ ∃ v, vRad_d M glon glat (radius_d M glon glat d) = some (Dbl.num v)
            ∧ scan_pass M glon glat d nxt v1 v2 = some (Iter.next nxt
                (if v < v1 then v else v1) (if v > v2 then v else v2))) := by
  by_cases hd : d < RSUN + RMAX
  · right
    cases hg : Dbl.gt (height_d M glat d) ZDISC with
    | true =>
      left
      refine ⟨hd, rfl, ?_⟩
      simp only [scan_pass, if_pos hd, hg, if_true]
    | false =>
      right
      obtain ⟨w, hw⟩ := vRad_d_total M glon glat (radius_d M glon glat d)
      cases w with
      | nan =>
        left
        refine ⟨hd, rfl, hw, ?_⟩
        simp only [scan_pass, if_pos hd, hg, hw]
        rfl
      | num v =>
        right
        refine ⟨hd, rfl, v, hw, ?_⟩
        simp only [scan_pass, if_pos hd, hg, hw]
        rfl
  · left
    refine ⟨hd, ?_⟩
    simp only [scan_pass, if_neg hd]

/-- Invariant and counting rule for the loop over a sequence of distances that stays below the
bound of the loop for 285 passes and not longer. A property `P` of `(v1, v2)` that every
update of lines 104-105 preserves holds when the loop is left; the loop is left within 286
passes; the body is entered at most 285 times, and exactly 285 times if no pass breaks. -/
theorem scan_run_invariant (dist : ℕ → α) (M : Libm α) (glon glat : Dbl α)
    (hlt : ∀ k, k < 285 → dist k < RSUN + RMAX) (hge : ¬ dist 285 < RSUN + RMAX)
    (P : α → α → Prop)
    (hstep : ∀ (k : ℕ) (v1 v2 v : α), P v1 v2 →
      Dbl.gt (height_d M glat (dist k)) ZDISC = false →
      vRad_d M glon glat (radius_d M glon glat (dist k)) = some (Dbl.num v) →
      P (if v < v1 then v else v1) (if v > v2 then v else v2)) :
    ∀ (fuel k : ℕ) (v1 v2 : α), k ≤ 285 → 286 ≤ k + fuel → P v1 v2 →
      ∃ a b c, scan_run dist M glon glat fuel k v1 v2 = some (a, b, c) ∧ P a b
        ∧ c + k ≤ 285
        ∧ ((∀ j, j < 285 → Dbl.gt (height_d M glat (dist j)) ZDISC = false) → c + k = 285) := by
  intro fuel
  induction fuel with
  | zero =>
    intro k v1 v2 hk hf _
    omega
  | succ f ih =>
    intro k v1 v2 hk hf hP
    rcases scan_pass_spec M glon glat (dist k) (dist (k + 1)) v1 v2 with
      ⟨hd, hp⟩ | ⟨hd, hg, hp⟩ | ⟨hd, hg, hw, hp⟩ | ⟨hd, hg, v, hw, hp⟩
    · have hk285 : k = 285 := by
        by_contra hne
        exact hd (hlt k (by omega))
      refine ⟨v1, v2, 0, ?_, hP, by omega, fun _ => by omega⟩
      simp only [scan_run, hp]
    · have hk285 : k < 285 := by
        by_contra hne
        have : k = 285 := by omega
        subst this
        exact hge hd
      refine ⟨v1, v2, 1, ?_, hP, by omega, fun hall => ?_⟩
      · simp only [scan_run, hp]
      · have := hall k hk285
        rw [hg] at this
        cases this
    · have hk285 : k < 285 := by
        by_contra hne
        have : k = 285 := by omega
        subst this
        exact hge hd
      obtain ⟨a, b, c, hr, hPab, hle, hex⟩ := ih (k + 1) v1 v2 (by omega) (by omega) hP
      refine ⟨a, b, c + 1, ?_, hPab, by omega, fun hall => by have := hex hall; omega⟩
      simp only [scan_run, hp, hr, Option.map_some']
    · have hk285 : k < 285 := by
        by_contra hne
        have : k = 285 := by omega
        subst this
        exact hge hd
      obtain ⟨a, b, c, hr, hPab, hle, hex⟩ :=
        ih (k + 1) _ _ (by omega) (by omega) (hstep k v1 v2 v hP hg hw)
      refine ⟨a, b, c + 1, ?_, hPab, by omega, fun hall => by have := hex hall; omega⟩
      simp only [scan_run, hp, hr, Option.map_some']

/-- The loop with the exact step is the loop over the exact multiples of 0.1. -/
theorem scan_run_exact (M : Libm α) (l b : α) :
    ∀ (fuel k : ℕ) (v1 v2 : α),
      (scan_run distance_exact M (Dbl.num l) (Dbl.num b) fuel k v1 v2).map
          (fun r => (r.1, r.2.1))
        = scan_loop M l b fuel (0.1 * (k : α)) v1 v2 := by
  intro fuel
  induction fuel with
  | zero =>
    intro k v1 v2
    rfl
  | succ f ih =>
    intro k v1 v2
    have e : (distance_exact (k + 1) : α) = distance_exact k + 0.1 := by
      unfold distance_exact
      push_cast
      ring
    have hp := scan_pass_num M l b (distance_exact k) v1 v2
    rw [← e] at hp
    simp only [scan_run, scan_loop, hp]
    have ek : (distance_exact k : α) = 0.1 * (k : α) := rfl
    rw [ek]
    cases hi : scan_iter M l b (0.1 * (k : α)) v1 v2 with
    | none => rfl
    | some it =>
      cases it with
      | done x y => rfl
      | brk x y => rfl
      | next d x y =>
        obtain ⟨hd, -⟩ := scan_iter_next M l b _ v1 v2 d x y hi
        simp only [Option.map_map]
        rw [hd, scan_distance_succ, ← ih (k + 1) x y]
        rfl

end Passes

section Grid

variable {α : Type} [LinearOrderedField α]

set_option maxRecDepth 100000

/-- The distance after `k + j` additions is the distance after `k` additions stepped `j`
more times. -/
theorem dist_units_add (k j : ℕ) : dist_units (k + j) = dist_step^[j] (dist_units k) := by
  induction j with
  | zero => rfl
  | succ m ih =>
    rw [Function.iterate_succ_apply', ← ih]
    rfl

/-- The binary64 value of `distance` after every 19 additions of `0.1`, in units of `2^-56`. -/
theorem dist_units_checkpoints :
    dist_units 19 = 136909428672063120
      ∧ dist_units 38 = 273818857344126304
      ∧ dist_units 57 = 410728286016188928
      ∧ dist_units 76 = 547637714688251520
      ∧ dist_units 95 = 684547143360314112
      ∧ dist_units 114 = 821456572032376704
      ∧ dist_units 133 = 958366000704439296
      ∧ dist_units 152 = 1095275429376501888
      ∧ dist_units 171 = 1232184858048565760
      ∧ dist_units 190 = 1369094286720630784
      ∧ dist_units 209 = 1506003715392695808
      ∧ dist_units 228 = 1642913144064760832
      ∧ dist_units 247 = 1779822572736825856
      ∧ dist_units 266 = 1916732001408890880
      ∧ dist_units 285 = 2053641430080955904 := by
  have h1 : dist_units 19 = 136909428672063120 := by
    decide
  have h2 : dist_units 38 = 273818857344126304 := by
    rw [show 38 = 19 + 19 from rfl, dist_units_add, h1]
    decide
  have h3 : dist_units 57 = 410728286016188928 := by
    rw [show 57 = 38 + 19 from rfl, dist_units_add, h2]
    decide
  have h4 : dist_units 76 = 547637714688251520 := by
    rw [show 76 = 57 + 19 from rfl, dist_units_add, h3]
    decide
  have h5 : dist_units 95 = 684547143360314112 := by
    rw [show 95 = 76 + 19 from rfl, dist_units_add, h4]
    decide
  have h6 : dist_units 114 = 821456572032376704 := by
    rw [show 114 = 95 + 19 from rfl, dist_units_add, h5]
    decide
  have h7 : dist_units 133 = 958366000704439296 := by
    rw [show 133 = 114 + 19 from rfl, dist_units_add, h6]
    decide
  have h8 : dist_units 152 = 1095275429376501888 := by
    rw [show 152 = 133 + 19 from rfl, dist_units_add, h7]
    decide
  have h9 : dist_units 171 = 1232184858048565760 := by
    rw [show 171 = 152 + 19 from rfl, dist_units_add, h8]
    decide
  have h10 : dist_units 190 = 1369094286720630784 := by
    rw [show 190 = 171 + 19 from rfl, dist_units_add, h9]
    decide
  have h11 : dist_units 209 = 1506003715392695808 := by
    rw [show 209 = 190 + 19 from rfl, dist_units_add, h10]
    decide
  have h12 : dist_units 228 = 1642913144064760832 := by
    rw [show 228 = 209 + 19 from rfl, dist_units_add, h11]
    decide
  have h13 : dist_units 247 = 1779822572736825856 := by
    rw [show 247 = 228 + 19 from rfl, dist_units_add, h12]
    decide
  have h14 : dist_units 266 = 1916732001408890880 := by
    rw [show 266 = 247 + 19 from rfl, dist_units_add, h13]
    decide
  have h15 : dist_units 285 = 2053641430080955904 := by
    rw [show 285 = 266 + 19 from rfl, dist_units_add, h14]
    decide
  exact ⟨h1, h2, h3, h4, h5, h6, h7, h8, h9, h10, h11, h12, h13, h14, h15⟩

/-- Every addition of `0.1` increases the binary64 `distance` of the first 285 passes. -/
theorem dist_units_step (k : ℕ) (hk : k < 285) : dist_units k < dist_units (k + 1) := by
  obtain ⟨h1, h2, h3, h4, h5, h6, h7, h8, h9, h10, h11, h12, h13, h14, -⟩ :=
    dist_units_checkpoints
  have e : k = 19 * (k / 19) + k % 19 := (Nat.div_add_mod k 19).symm
  have hj : k % 19 < 19 := Nat.mod_lt _ (by norm_num)
  have hi : k / 19 < 15 := by omega
  clear hk
  generalize k / 19 = i at e hi
  generalize k % 19 = j at e hj
  subst e
  show dist_units (19 * i + j) < dist_step (dist_units (19 * i + j))
  rw [dist_units_add]
  revert j
  interval_cases i
  · show ∀ j, j < 19 → dist_step^[j] 0 < dist_step (dist_step^[j] 0)
    decide
  · rw [show 19 * 1 = 19 from rfl, h1]
    decide
  · rw [show 19 * 2 = 38 from rfl, h2]
    decide
  · rw [show 19 * 3 = 57 from rfl, h3]
    decide
  · rw [show 19 * 4 = 76 from rfl, h4]
    decide
  · rw [show 19 * 5 = 95 from rfl, h5]
    decide
  · rw [show 19 * 6 = 114 from rfl, h6]
    decide
  · rw [show 19 * 7 = 133 from rfl, h7]
    decide
  · rw [show 19 * 8 = 152 from rfl, h8]
    decide
  · rw [show 19 * 9 = 171 from rfl, h9]
    decide
  · rw [show 19 * 10 = 190 from rfl, h10]
    decide
  · rw [show 19 * 11 = 209 from rfl, h11]
    decide
  · rw [show 19 * 12 = 228 from rfl, h12]
    decide
  · rw [show 19 * 13 = 247 from rfl, h13]
    decide
  · rw [show 19 * 14 = 266 from rfl, h14]
    decide

theorem dist_units_85 : dist_units 85 = 612489549322386432 := by
  rw [show 85 = 76 + 9 from rfl, dist_units_add,
    dist_units_checkpoints.2.2.2.1]
  decide

theorem dist_units_86 : dist_units 86 = 619695308726179200 := by
  rw [show 86 = 76 + 10 from rfl, dist_units_add,
    dist_units_checkpoints.2.2.2.1]
  decide

theorem dist_units_284 : dist_units 284 = 2046435670677163008 := by
  rw [show 284 = 266 + 18 from rfl, dist_units_add,
    dist_units_checkpoints.2.2.2.2.2.2.2.2.2.2.2.2.2.1]
  decide

theorem dist_units_285 : dist_units 285 = 2053641430080955904 := by
  exact dist_units_checkpoints.2.2.2.2.2.2.2.2.2.2.2.2.2.2

/-- The binary64 `distance` of each of the first 285 passes is within `2^-42` of the exact
multiple of 0.1, in units of `2^-56` and multiplied by 10. -/
theorem dist_units_near (k : ℕ) (hk : k < 285) :
    10 * dist_units k ≤ k * 2 ^ 56 + 163840 ∧ k * 2 ^ 56 ≤ 10 * dist_units k + 163840 := by
  obtain ⟨h1, h2, h3, h4, h5, h6, h7, h8, h9, h10, h11, h12, h13, h14, -⟩ :=
    dist_units_checkpoints
  have e : k = 19 * (k / 19) + k % 19 := (Nat.div_add_mod k 19).symm
  have hj : k % 19 < 19 := Nat.mod_lt _ (by norm_num)
  have hi : k / 19 < 15 := by omega
  clear hk
  generalize k / 19 = i at e hi
  generalize k % 19 = j at e hj
  subst e
  rw [dist_units_add]
  revert j
  interval_cases i
  · show ∀ j, j < 19 → 10 * dist_step^[j] 0 ≤ (19 * 0 + j) * 2 ^ 56 + 163840
        ∧ (19 * 0 + j) * 2 ^ 56 ≤ 10 * dist_step^[j] 0 + 163840
    decide
  · rw [show 19 * 1 = 19 from rfl, h1]
    decide
  · rw [show 19 * 2 = 38 from rfl, h2]
    decide
  · rw [show 19 * 3 = 57 from rfl, h3]
    decide
  · rw [show 19 * 4 = 76 from rfl, h4]
    decide
  · rw [show 19 * 5 = 95 from rfl, h5]
    decide
  · rw [show 19 * 6 = 114 from rfl, h6]
    decide
  · rw [show 19 * 7 = 133 from rfl, h7]
    decide
  · rw [show 19 * 8 = 152 from rfl, h8]
    decide
  · rw [show 19 * 9 = 171 from rfl, h9]
    decide
  · rw [show 19 * 10 = 190 from rfl, h10]
    decide
  · rw [show 19 * 11 = 209 from rfl, h11]
    decide
  · rw [show 19 * 12 = 228 from rfl, h12]
    decide
  · rw [show 19 * 13 = 247 from rfl, h13]
    decide
  · rw [show 19 * 14 = 266 from rfl, h14]
    decide

/-- The binary64 distances increase from one pass to the next. -/
theorem dist_units_lt_of_lt (j k : ℕ) (hjk : j < k) (hk : k ≤ 285) :
    dist_units j < dist_units k := by
  induction k with
  | zero => omega
  | succ m ih =>
    by_cases h : j = m
    · subst h
      exact dist_units_step j (by omega)
    · exact lt_trans (ih (by omega) (by omega)) (dist_units_step m (by omega))

theorem dist_units_le_of_le (j k : ℕ) (hjk : j ≤ k) (hk : k ≤ 285) :
    dist_units j ≤ dist_units k := by
  rcases Nat.eq_or_lt_of_le hjk with h | h
  · rw [h]
  · exact le_of_lt (dist_units_lt_of_lt j k h hk)

/-- In units of `2^-56`: the bound `RSUN + RMAX = 28.5` of the loop. -/
theorem bound_units : (RSUN + RMAX : α) = ((2053641430080946176 : ℕ) : α) / 2 ^ 56 := by
  unfold RSUN RMAX
  norm_num

/-- In units of `2^-56`: the solar radius 8.5. -/
theorem eight_half_units : (8.5 : α) = ((612489549322387456 : ℕ) : α) / 2 ^ 56 := by
  norm_num

theorem units_lt (m n : ℕ) : ((m : α) / 2 ^ 56 < (n : α) / 2 ^ 56) ↔ m < n := by
  rw [div_lt_div_iff_of_pos_right (by positivity), Nat.cast_lt]

theorem units_le (m n : ℕ) : ((m : α) / 2 ^ 56 ≤ (n : α) / 2 ^ 56) ↔ m ≤ n := by
  rw [div_le_div_iff_of_pos_right (by positivity), Nat.cast_le]

/-- The first 285 binary64 distances are below the bound `RSUN + RMAX` of the loop. -/
theorem distance64_lt (k : ℕ) (hk : k < 285) : (distance64 k : α) < RSUN + RMAX := by
  unfold distance64
  rw [bound_units, units_lt]
  have h1 := dist_units_le_of_le k 284 (by omega) (by omega)
  have h2 := dist_units_284
  omega

/-- The binary64 distance after 285 additions, `28.500000000000135`, is not below the bound. -/
theorem distance64_ge : ¬ (distance64 285 : α) < RSUN + RMAX := by
  unfold distance64
  rw [bound_units, units_lt, dist_units_285]
  omega

theorem distance64_lt_iff (k : ℕ) (hk : k ≤ 285) :
    (distance64 k : α) < RSUN + RMAX ↔ k < 285 := by
  constructor
  · intro h
    by_contra hc
    have : k = 285 := by omega
    subst this
    exact distance64_ge h
  · exact distance64_lt k

theorem distance64_mono (j k : ℕ) (hjk : j ≤ k) (hk : k ≤ 285) :
    (distance64 j : α) ≤ distance64 k := by
  unfold distance64
  rw [units_le]
  exact dist_units_le_of_le j k hjk hk

theorem distance64_strict_mono (j k : ℕ) (hjk : j < k) (hk : k ≤ 285) :
    (distance64 j : α) < distance64 k := by
  unfold distance64
  rw [units_lt]
  exact dist_units_lt_of_lt j k hjk hk

theorem distance64_zero : (distance64 0 : α) = 0 := by
  unfold distance64
  simp [dist_units]

theorem distance64_nonneg (k : ℕ) : (0 : α) ≤ distance64 k := by
  unfold distance64
  positivity

theorem distance_exact_zero : (distance_exact 0 : α) = 0 := by
  unfold distance_exact
  simp

theorem distance_exact_lt (k : ℕ) (hk : k < 285) : (distance_exact k : α) < RSUN + RMAX :=
  (scan_distance_lt k).mpr hk

theorem distance_exact_ge : ¬ (distance_exact 285 : α) < RSUN + RMAX := by
  unfold distance_exact
  rw [scan_distance_lt]
  omega

theorem distance_exact_mono (j k : ℕ) (hjk : j ≤ k) :
    (distance_exact j : α) ≤ distance_exact k := by
  unfold distance_exact
  apply mul_le_mul_of_nonneg_left _ (by norm_num)
  exact_mod_cast hjk

/-- The binary64 distance of pass 86 is `8.5 - 2^-46`, not 8.5. -/
theorem distance64_85 : (distance64 85 : α) = 8.5 - 1 / 2 ^ 46 := by
  unfold distance64
  rw [dist_units_85]
  norm_num

/-- No binary64 distance of the loop is 8.5. -/
theorem distance64_ne_centre (k : ℕ) (hk : k ≤ 285) : (distance64 k : α) ≠ 8.5 := by
  unfold distance64
  rw [eight_half_units]
  intro h
  rw [div_left_inj' (by positivity), Nat.cast_inj] at h
  by_cases h85 : k ≤ 85
  · have h1 := dist_units_le_of_le k 85 h85 (by omega)
    have h2 := dist_units_85
    omega
  · have h1 := dist_units_le_of_le 86 k (by omega) hk
    have h2 := dist_units_86
    omega

/-- The binary64 distance of each of the first 285 passes is within `2^-42` of the exact
multiple of 0.1. -/
theorem distance64_near (k : ℕ) (hk : k < 285) :
    |(distance64 k : α) - 0.1 * (k : α)| ≤ 1 / 2 ^ 42 := by
  obtain ⟨h1, h2⟩ := dist_units_near k hk
  have h1' : (10 : α) * (dist_units k : α) ≤ (k : α) * 2 ^ 56 + 163840 := by exact_mod_cast h1
  have h2' : (k : α) * 2 ^ 56 ≤ (10 : α) * (dist_units k : α) + 163840 := by exact_mod_cast h2
  have e : (distance64 k : α) - 0.1 * (k : α)
      = (10 * (dist_units k : α) - (k : α) * 2 ^ 56) / (10 * 2 ^ 56) := by
    unfold distance64
    norm_num
    ring
  rw [e, abs_le]
  constructor
  · rw [le_div_iff₀ (by positivity)]
    norm_num
    linarith
  · rw [div_le_iff₀ (by positivity)]
    norm_num
    linarith

end Grid

section States

variable {α : Type} [LinearOrderedField α]

/-- Below the bound and with a height that is not above the disc, a pass runs the body to its
end. -/
theorem scan_pass_next_of (M : Libm α) (glon glat : Dbl α) (d0 nxt a b : α)
    (hd : d0 < RSUN + RMAX) (hg : Dbl.gt (height_d M glat d0) ZDISC = false) :
    ∃ v1 v2, scan_pass M glon glat d0 nxt a b = some (Iter.next nxt v1 v2) := by
  rcases scan_pass_spec M glon glat d0 nxt a b with
    ⟨hd', -⟩ | ⟨-, hg', -⟩ | ⟨-, -, -, hp⟩ | ⟨-, -, v, -, hp⟩
  · exact absurd hd hd'
  · rw [hg] at hg'
    cases hg'
  · exact ⟨_, _, hp⟩
  · exact ⟨_, _, hp⟩

/-- A pass over a sample of a direction given by numbers, below the bound and inside the disc:
line 103 yields NaN if the Galactocentric radius is 0, which leaves the bounds as they are, and
otherwise the number that lines 104-105 fold into the bounds. -/
theorem scan_pass_update (M : Libm α) (l b d0 nxt v1 v2 : α)
    (hd : d0 < RSUN + RMAX) (hh : height M b d0 ≤ ZDISC) :
    scan_pass M (Dbl.num l) (Dbl.num b) d0 nxt v1 v2
      = some (Iter.next nxt
          (if radius M l b d0 = 0 then v1
            else if (rotation_curve_spec (radius M l b d0) * (RSUN / radius M l b d0)
                - rotation_curve_spec RSUN) * M.sin l * M.cos b < v1
              then (rotation_curve_spec (radius M l b d0) * (RSUN / radius M l b d0)
                - rotation_curve_spec RSUN) * M.sin l * M.cos b
              else v1)
          (if radius M l b d0 = 0 then v2
            else if (rotation_curve_spec (radius M l b d0) * (RSUN / radius M l b d0)
                - rotation_curve_spec RSUN) * M.sin l * M.cos b > v2
              then (rotation_curve_spec (radius M l b d0) * (RSUN / radius M l b d0)
                - rotation_curve_spec RSUN) * M.sin l * M.cos b
              else v2)) := by
  have hg : Dbl.gt (height_d M (Dbl.num b) d0) ZDISC = false := by
    rw [← Bool.not_eq_true, gt_height_num]
    exact not_lt.mpr hh
  unfold scan_pass
  rw [if_pos hd, hg, vRad_d_num, vRad_eq]
  by_cases hr : radius M l b d0 = 0
  · simp only [if_pos hr]
    rfl
  · simp only [if_neg hr]
    rfl

theorem scan_state_next_succ (dist : ℕ → α) (M : Libm α) (glon glat : Dbl α) (k : ℕ)
    (d v1 v2 : α) (h : scan_state dist M glon glat k = some (Iter.next d v1 v2)) :
    scan_state dist M glon glat (k + 1)
      = scan_pass M glon glat (dist k) (dist (k + 1)) v1 v2 := by
  simp only [scan_state, h]

/-- The loop is running after `k` passes if each of the first `k` samples is below the bound
and not above the disc. -/
theorem scan_state_reach (dist : ℕ → α) (M : Libm α) (glon glat : Dbl α) (k : ℕ)
    (h : ∀ j, j < k → dist j < RSUN + RMAX ∧ Dbl.gt (height_d M glat (dist j)) ZDISC = false) :
    ∃ v1 v2, scan_state dist M glon glat k = some (Iter.next (dist k) v1 v2) := by
  induction k with
  | zero => exact ⟨_, _, rfl⟩
  | succ m ih =>
    obtain ⟨a, b, hs⟩ := ih (fun j hj => h j (by omega))
    obtain ⟨v1, v2, hp⟩ := scan_pass_next_of M glon glat (dist m) (dist (m + 1)) a b
      (h m (by omega)).1 (h m (by omega)).2
    exact ⟨v1, v2, by rw [scan_state_next_succ dist M glon glat m _ a b hs, hp]⟩

theorem gt_height_false (M : Libm α) (b d : α) (h : height M b d ≤ ZDISC) :
    Dbl.gt (height_d M (Dbl.num b) d) ZDISC = false := by
  rw [← Bool.not_eq_true, gt_height_num]
  exact not_lt.mpr h

/-- The final state of the loop of `scan_run`. If the loop started in pass `k + 1` is left
with the body count `c`, then either the last of the `c` entries into the body ran into
`break` (the loop was running after `k + c - 1` passes and has run into `break` after `k + c`
passes), or the loop is running after `k + c` passes at a distance that is not below the
bound. -/
theorem scan_run_state (dist : ℕ → α) (M : Libm α) (glon glat : Dbl α) :
    ∀ (fuel k : ℕ) (v1 v2 a b : α) (c : ℕ),
      scan_state dist M glon glat k = some (Iter.next (dist k) v1 v2) →
      scan_run dist M glon glat fuel k v1 v2 = some (a, b, c) →
        (∃ m, c = m + 1
            ∧ scan_state dist M glon glat (k + m) = some (Iter.next (dist (k + m)) a b)
            ∧ scan_state dist M glon glat (k + m + 1) = some (Iter.brk a b))
          ∨ (scan_state dist M glon glat (k + c) = some (Iter.next (dist (k + c)) a b)
              ∧ ¬ dist (k + c) < RSUN + RMAX) := by
  intro fuel
  induction fuel with
  | zero =>
    intro k v1 v2 a b c _ hr
    simp only [scan_run] at hr
    cases hr
  | succ f ih =>
    intro k v1 v2 a b c hs hr
    have hsucc := scan_state_next_succ dist M glon glat k _ v1 v2 hs
    have hrec : ∀ x y : α,
        scan_pass M glon glat (dist k) (dist (k + 1)) v1 v2
          = some (Iter.next (dist (k + 1)) x y) →
        (scan_run dist M glon glat f (k + 1) x y).map (fun r => (r.1, r.2.1, r.2.2 + 1))
          = some (a, b, c) →
        (∃ m, c = m + 1
            ∧ scan_state dist M glon glat (k + m) = some (Iter.next (dist (k + m)) a b)
            ∧ scan_state dist M glon glat (k + m + 1) = some (Iter.brk a b))
          ∨ (scan_state dist M glon glat (k + c) = some (Iter.next (dist (k + c)) a b)
              ∧ ¬ dist (k + c) < RSUN + RMAX) := by
      intro x y hp hq
      cases hq' : scan_run dist M glon glat f (k + 1) x y with
      | none =>
        rw [hq'] at hq
        cases hq
      | some r =>
        obtain ⟨x', y', z⟩ := r
        rw [hq'] at hq
        simp only [Option.map_some', Option.some.injEq, Prod.mk.injEq] at hq
        obtain ⟨rfl, rfl, rfl⟩ := hq
        rcases ih (k + 1) x y x' y' z (by rw [hsucc, hp]) hq' with ⟨m, hm, h1, h2⟩ | h2
        · refine Or.inl ⟨m + 1, by omega, ?_, ?_⟩
          · rw [show k + (m + 1) = k + 1 + m by omega]
            exact h1
          · rw [show k + (m + 1) + 1 = k + 1 + m + 1 by omega]
            exact h2
        · rw [show k + (z + 1) = k + 1 + z by omega]
          exact Or.inr h2
    rcases scan_pass_spec M glon glat (dist k) (dist (k + 1)) v1 v2 with
      ⟨hd, hp⟩ | ⟨hd, hg, hp⟩ | ⟨hd, hg, hw, hp⟩ | ⟨hd, hg, v, hw, hp⟩
    · simp only [scan_run, hp] at hr
      cases hr
      right
      exact ⟨hs, hd⟩
    · simp only [scan_run, hp] at hr
      cases hr
      left
      exact ⟨0, rfl, hs, by rw [Nat.add_zero, hsucc, hp]⟩
    · simp only [scan_run, hp] at hr
      exact hrec v1 v2 hp hr
    · simp only [scan_run, hp] at hr
      exact hrec _ _ hp hr

end States

section Sampling

variable {α : Type} [LinearOrderedField α]

/-- Both sequences of distances, the binary64 one of the program and the exact multiples of
0.1, start at 0, stay below the bound of the loop for exactly 285 passes and do not
decrease. -/
theorem grid_facts (dist : ℕ → α) (hd : dist = distance64 ∨ dist = distance_exact) :
    dist 0 = 0 ∧ (∀ k, k < 285 → dist k < RSUN + RMAX) ∧ ¬ dist 285 < RSUN + RMAX
      ∧ (∀ j k, j ≤ k → k ≤ 285 → dist j ≤ dist k) := by
  rcases hd with rfl | rfl
  · exact ⟨distance64_zero, distance64_lt, distance64_ge, distance64_mono⟩
  · exact ⟨distance_exact_zero, distance_exact_lt, distance_exact_ge,
      fun j k hjk _ => distance_exact_mono j k hjk⟩

/-- The loop is left within 286 passes for every direction, NaN included, with a body count
`c` of at most 285 that is exactly 285 if no pass breaks. The count is tied to the states of
the loop: either pass `c` is the one that runs into `break`, or `c = 285` and the loop is
still running after 285 passes, when its test fails. -/
theorem scan_run_count (dist : ℕ → α) (hd : dist = distance64 ∨ dist = distance_exact)
    (M : Libm α) (glon glat : Dbl α) (n : ℕ) :
    ∃ a b c, scan_run dist M glon glat (286 + n) 0 1.0e+9 (-1.0e+9) = some (a, b, c)
      ∧ c ≤ 285
      ∧ ((∀ j, j < 285 → Dbl.gt (height_d M glat (dist j)) ZDISC = false) → c = 285)
      ∧ ((∃ m, c = m + 1
            ∧ scan_state dist M glon glat m = some (Iter.next (dist m) a b)
            ∧ scan_state dist M glon glat (m + 1) = some (Iter.brk a b))
          ∨ (c = 285 ∧ scan_state dist M glon glat c = some (Iter.next (dist c) a b))) := by
  obtain ⟨-, hlt, hge, -⟩ := grid_facts dist hd
  obtain ⟨a, b, c, hr, -, hle, hex⟩ := scan_run_invariant dist M glon glat hlt hge
    (fun _ _ => True) (fun _ _ _ _ _ _ _ => trivial) (286 + n) 0 1.0e+9 (-1.0e+9)
    (by omega) (by omega) trivial
  refine ⟨a, b, c, hr, by omega, fun hall => by have := hex hall; omega, ?_⟩
  rcases scan_run_state dist M glon glat (286 + n) 0 1.0e+9 (-1.0e+9) a b c rfl hr with
    ⟨m, hm, h1, h2⟩ | ⟨h1, h2⟩
  · rw [Nat.zero_add] at h1 h2
    exact Or.inl ⟨m, hm, h1, h2⟩
  · rw [Nat.zero_add] at h1 h2
    refine Or.inr ⟨?_, h1⟩
    by_contra hne
    exact h2 (hlt c (by omega))

/-- With the exact step and numbers as angles, the final pair of the loop over a sequence is
the one of `velo_range`. -/
theorem velo_range_d_exact (M : Libm α) (fuel : ℕ) (l b : α) :
    velo_range_d distance_exact M fuel (Dbl.num l) (Dbl.num b) = velo_range M fuel l b := by
  have h := scan_run_exact M l b fuel 0 1.0e+9 (-1.0e+9)
  rw [← scan_start] at h
  unfold velo_range_d velo_range
  rw [← h, Option.map_map]
  rfl

/-- C13: the line-of-sight scan terminates for every direction after at most 285 executions
of the loop body, and it executes exactly 285 times when `sin b = 0`. The loop is the one of
lines 94-106 over the values that `distance` takes, both for the binary64 additions of the
program (`distance64`) and for an exact step (`distance_exact`, the distances 0.0, 0.1, ...,
28.4). Either sequence is below the bound `8.5 + 20.0` in its first 285 passes and not in
pass 286, and the binary64 distances are within `2^-42` of the exact ones. For every
direction, a NaN one included, the loop started with 286 passes or more is left with a
result, after `c ≤ 285` entries into the body, with `c = 285` if `sin b = 0` (and for a NaN
latitude). The count is that of the states of the loop: either pass `c` is the one that runs
into `break`, or `c = 285` and the loop test fails in pass 286. With the exact step and
numbers as angles the bounds are those of `scan_loop`, the loop of `velo_range`. -/
theorem C13_scan_terminates (M : Libm α) (glon glat : Dbl α) (n : ℕ) :
    ((distance64 0 : α) = 0.0
        ∧ (∀ k : ℕ, k ≤ 285 → ((distance64 k : α) < RSUN + RMAX ↔ k < 285))
        ∧ ∀ k : ℕ, k < 285 → |(distance64 k : α) - 0.1 * (k : α)| ≤ 1 / 2 ^ 42)
      ∧ ((distance_exact 0 : α) = 0.0 ∧ (distance_exact 284 : α) = 28.4
        ∧ (RSUN + RMAX : α) = 8.5 + 20.0
        ∧ ∀ k : ℕ, (distance_exact k : α) = 0.1 * (k : α)
            ∧ ((distance_exact k : α) < RSUN + RMAX ↔ k < 285))
      ∧ (∀ dist : ℕ → α, dist = distance64 ∨ dist = distance_exact →
          ∃ a b c, scan_run dist M glon glat (286 + n) 0 1.0e+9 (-1.0e+9) = some (a, b, c)
            ∧ c ≤ 285
            ∧ ((∀ x, glat = Dbl.num x → M.sin x = 0) → c = 285)
            ∧ ((∃ m, c = m + 1
                  ∧ scan_state dist M glon glat m = some (Iter.next (dist m) a b)
                  ∧ scan_state dist M glon glat (m + 1) = some (Iter.brk a b))
                ∨ (c = 285
                  ∧ scan_state dist M glon glat c = some (Iter.next (dist c) a b))))
      ∧ (∀ l b : α, glon = Dbl.num l → glat = Dbl.num b →
          (scan_run distance_exact M glon glat (286 + n) 0 1.0e+9 (-1.0e+9)).map
              (fun r => (r.1, r.2.1))
            = scan_loop M l b (286 + n) 0.0 1.0e+9 (-1.0e+9)) := by
  refine ⟨⟨?_, distance64_lt_iff, distance64_near⟩,
    ⟨?_, ?_, ?_, fun k => ⟨rfl, scan_distance_lt k⟩⟩, ?_, ?_⟩
  · rw [distance64_zero]
    norm_num
  · rw [distance_exact_zero]
    norm_num
  · unfold distance_exact
    norm_num
  · unfold RSUN RMAX
    norm_num
  · intro dist hd
    obtain ⟨a, b, c, hr, hle, hex, hst⟩ := scan_run_count dist hd M glon glat n
    refine ⟨a, b, c, hr, hle, fun hs => hex (fun j _ => ?_), hst⟩
    cases glat with
    | nan => rfl
    | num x =>
      apply gt_height_false
      rw [height_zero_of_sin M x _ (hs x rfl)]
      exact ZDISC_nonneg
  · rintro l b rfl rfl
    have h := scan_run_exact M l b (286 + n) 0 1.0e+9 (-1.0e+9)
    rw [← scan_start] at h
    exact h

/-- Witness of C13: the real library in the Galactic plane, `b = 0`, toward `l = 1`, with the
binary64 distances of the program: the body is entered exactly 285 times. -/
theorem C13_scan_terminates_witness :
    Real.sin 0 = 0
      ∧ ∃ a b : ℝ, scan_run distance64 (⟨Real.pi, fun _ => 0, Real.sin, Real.cos, Real.arcsin,
          fun y x => Complex.arg ⟨x, y⟩, Real.sqrt⟩ : Libm ℝ) (Dbl.num 1) (Dbl.num 0)
          (286 + 0) 0 1.0e+9 (-1.0e+9) = some (a, b, 285) := by
  obtain ⟨a, b, c, hr, -, h, -⟩ := (C13_scan_terminates (⟨Real.pi, fun _ => 0, Real.sin,
    Real.cos, Real.arcsin, fun y x => Complex.arg ⟨x, y⟩, Real.sqrt⟩ : Libm ℝ)
    (Dbl.num 1) (Dbl.num 0) 0).2.2.1 distance64 (Or.inl rfl)
  have hc : c = 285 := h (fun x hx => by
    cases hx
    exact Real.sin_zero)
  subst hc
  exact ⟨Real.sin_zero, a, b, hr⟩

/-- The first pass of the loop for a direction given by numbers: the sample at distance 0 is
processed and replaces both sentinel values by 0. -/
theorem scan_pass_first (M : Libm α) (hM : M.Exact) (glon glat nxt : α) :
    scan_pass M (Dbl.num glon) (Dbl.num glat) 0 nxt 1.0e+9 (-1.0e+9)
      = some (Iter.next nxt 0 0) := by
  have hd : (0 : α) < RSUN + RMAX := by unfold RSUN RMAX; norm_num
  have hg : Dbl.gt (height_d M (Dbl.num glat) 0) ZDISC = false := by
    apply gt_height_false
    rw [height_at_zero]
    exact ZDISC_nonneg
  unfold scan_pass
  rw [if_pos hd, hg, vRad_d_num, vRad_at_zero M hM]
  norm_num

/-- With a NaN longitude line 103 yields NaN in every pass. -/
theorem vRad_d_nan (M : Libm α) (glat r : Dbl α) :
    vRad_d M Dbl.nan glat r = some Dbl.nan := by
  cases glat <;> cases r <;> rfl

/-- For a NaN longitude the loop is left with the sentinel values it started with. -/
theorem scan_run_nan (dist : ℕ → α) (hd : dist = distance64 ∨ dist = distance_exact)
    (M : Libm α) (glat : Dbl α) (n : ℕ) :
    ∃ c, scan_run dist M Dbl.nan glat (286 + n) 0 1.0e+9 (-1.0e+9)
        = some (1.0e+9, -1.0e+9, c) ∧ c ≤ 285 ∧ (glat = Dbl.nan → c = 285) := by
  obtain ⟨-, hlt, hge, -⟩ := grid_facts dist hd
  obtain ⟨a, b, c, hr, ⟨ha, hb⟩, hle, hex⟩ := scan_run_invariant dist M Dbl.nan glat hlt hge
    (fun v1 v2 => v1 = 1.0e+9 ∧ v2 = -1.0e+9)
    (fun k v1 v2 v _ _ hv => by
      rw [vRad_d_nan] at hv
      cases hv)
    (286 + n) 0 1.0e+9 (-1.0e+9) (by omega) (by omega) ⟨rfl, rfl⟩
  subst ha hb
  refine ⟨c, hr, by omega, fun hg => ?_⟩
  subst hg
  have := hex (fun j _ => rfl)
  omega

/-- C18, amended: for every direction whose angles are numbers, the scan processes a first
sample at distance 0, and that sample contributes a radial velocity of exactly 0 (height 0,
radius 8.5, `RSUN / radius = 1`): the first pass replaces both sentinels by 0. Therefore the
loop ends with `v1 ≤ 0 ≤ v2`, the sentinel values `1.0e+9` and `-1.0e+9` do not survive it,
and the two clamp statements of lines 109-110 do not change the bounds. This holds for the
loop with the exact step (`scan_after`, `scan_loop`) and for the loop over the binary64
distances of the program (`scan_state`, `scan_run` over `distance64`). -/
theorem C18_first_sample_zero (M : Libm α) (hM : M.Exact) (glon glat : α) (n : ℕ) :
    (height M glat 0 = 0 ∧ radius M glon glat 0 = 8.5 ∧ RSUN / radius M glon glat 0 = 1
        ∧ vRad M glon glat (radius M glon glat 0) = some (Dbl.num 0))
      ∧ scan_after M glon glat 1 = some (Iter.next 0.1 0 0)
      ∧ (∃ a b, scan_loop M glon glat (286 + n) 0.0 1.0e+9 (-1.0e+9) = some (a, b)
          ∧ (a ≤ 0 ∧ 0 ≤ b) ∧ (a ≠ 1.0e+9 ∧ b ≠ -1.0e+9)
          ∧ ((if a > 0.0 then 0.0 else a) = a ∧ (if b < 0.0 then 0.0 else b) = b)
          ∧ deviation (a, b) = (a - VDEV, b + VDEV))
      ∧ (∀ dist : ℕ → α, dist = distance64 ∨ dist = distance_exact →
          dist 0 = 0
          ∧ scan_state dist M (Dbl.num glon) (Dbl.num glat) 1 = some (Iter.next (dist 1) 0 0)
          ∧ ∃ a b c, scan_run dist M (Dbl.num glon) (Dbl.num glat) (286 + n) 0 1.0e+9 (-1.0e+9)
              = some (a, b, c)
            ∧ 1 ≤ c
            ∧ (a ≤ 0 ∧ 0 ≤ b) ∧ (a ≠ 1.0e+9 ∧ b ≠ -1.0e+9)
            ∧ ((if a > 0.0 then 0.0 else a) = a ∧ (if b < 0.0 then 0.0 else b) = b)
            ∧ deviation (a, b) = (a - VDEV, b + VDEV)) := by
  have hR : (RSUN : α) ≠ 0 := by unfold RSUN; norm_num
  have hfin : ∀ a b : α, a ≤ 0 → 0 ≤ b → (a ≠ 1.0e+9 ∧ b ≠ -1.0e+9)
      ∧ ((if a > 0.0 then 0.0 else a) = a ∧ (if b < 0.0 then 0.0 else b) = b)
      ∧ deviation (a, b) = (a - VDEV, b + VDEV) := by
    intro a b ha hb
    have ha' : ¬ a > 0.0 := by
      norm_num
      exact ha
    have hb' : ¬ b < 0.0 := by
      norm_num
      exact hb
    refine ⟨⟨?_, ?_⟩, ⟨if_neg ha', if_neg hb'⟩, ?_⟩
    · intro h
      rw [h] at ha
      norm_num at ha
    · intro h
      rw [h] at hb
      norm_num at hb
    · unfold deviation
      simp only [if_neg ha', if_neg hb']
  have hupd : ∀ v1 v2 v : α, v1 ≤ 0 ∧ 0 ≤ v2 →
      (if v < v1 then v else v1) ≤ 0 ∧ 0 ≤ (if v > v2 then v else v2) := by
    intro v1 v2 v hP
    obtain ⟨h1, h2⟩ := hP
    constructor
    · split_ifs with hc
      · exact le_trans (le_of_lt hc) h1
      · exact h1
    · split_ifs with hc
      · exact le_trans h2 (le_of_lt hc)
      · exact h2
  refine ⟨⟨height_at_zero M glat, radius_at_zero M hM glon glat, ?_, vRad_at_zero M hM glon glat⟩,
    ?_, ?_, ?_⟩
  · rw [radius_at_zero M hM, div_self hR]
  · simp only [scan_after]
    exact scan_iter_first M hM glon glat
  · obtain ⟨a, b, hab, ha, hb⟩ := scan_loop_invariant M glon glat (fun v1 v2 => v1 ≤ 0 ∧ 0 ≤ v2)
      (fun k v1 v2 v hP _ _ => hupd v1 v2 v hP)
      (285 + n) 1 0 0 (by omega) (by omega) ⟨le_refl _, le_refl _⟩
    have e1 : (0.1 * ((1 : ℕ) : α)) = 0.1 := by norm_num
    rw [e1] at hab
    have hloop : scan_loop M glon glat (286 + n) 0.0 1.0e+9 (-1.0e+9) = some (a, b) := by
      have e : 286 + n = (285 + n) + 1 := by omega
      rw [e]
      simp only [scan_loop, scan_iter_first M hM glon glat]
      exact hab
    exact ⟨a, b, hloop, ⟨ha, hb⟩, hfin a b ha hb⟩
  · intro dist hd
    obtain ⟨h0, hlt, hge, -⟩ := grid_facts dist hd
    have hfirst := scan_pass_first M hM glon glat (dist 1)
    refine ⟨h0, ?_, ?_⟩
    · rw [scan_state_next_succ dist M _ _ 0 (dist 0) 1.0e+9 (-1.0e+9) rfl, h0]
      exact hfirst
    · obtain ⟨a, b, c, hr, ⟨ha, hb⟩, -, -⟩ := scan_run_invariant dist M (Dbl.num glon)
        (Dbl.num glat) hlt hge (fun v1 v2 => v1 ≤ 0 ∧ 0 ≤ v2)
        (fun k v1 v2 v hP _ _ => hupd v1 v2 v hP)
        (285 + n) 1 0 0 (by omega) (by omega) ⟨le_refl _, le_refl _⟩
      refine ⟨a, b, c + 1, ?_, by omega, ⟨ha, hb⟩, hfin a b ha hb⟩
      have e : 286 + n = (285 + n) + 1 := by omega
      rw [e]
      simp only [scan_run, h0, Nat.zero_add, hfirst, hr, Option.map_some']

/-- Witness of the amended C18: the real library, direction `l = 1`, `b = 1`, on the binary64
distances of the program. -/
theorem C18_first_sample_zero_witness :
    Libm.Exact (⟨Real.pi, fun _ => 0, Real.sin, Real.cos, Real.arcsin,
        fun y x => Complex.arg ⟨x, y⟩, Real.sqrt⟩ : Libm ℝ)
      ∧ scan_state distance64 (⟨Real.pi, fun _ => 0, Real.sin, Real.cos, Real.arcsin,
        fun y x => Complex.arg ⟨x, y⟩, Real.sqrt⟩ : Libm ℝ) (Dbl.num 1) (Dbl.num 1) 1
          = some (Iter.next (distance64 1) 0 0) :=
  ⟨real_libm_exact _ _ _ _,
    ((C18_first_sample_zero _ (real_libm_exact _ _ _ _) 1 1 0).2.2.2 distance64
      (Or.inl rfl)).2.1⟩

/-- C18, refuted as stated: for a direction that is not a number (`glon` and `glat` are NaN,
as lines 77-87 compute them for arguments such as `nan 0`), with the real library and the
binary64 distances of the program, `vRad` is NaN at every distance; the first sample is
processed and leaves both sentinels in place; all 285 samples are processed and the loop ends
with `v1 = 1.0e+9` and `v2 = -1.0e+9`, so `v1 ≤ 0 ≤ v2` does not hold after the loop; and both
clamp statements of lines 109-110 change the bounds, which is how the result becomes
`(-70, 70)`. -/
theorem C18_first_sample_zero_counterexample :
    (∀ d : ℝ, vRad_d (⟨Real.pi, fun _ => 0, Real.sin, Real.cos, Real.arcsin,
          fun y x => Complex.arg ⟨x, y⟩, Real.sqrt⟩ : Libm ℝ) Dbl.nan Dbl.nan
          (radius_d (⟨Real.pi, fun _ => 0, Real.sin, Real.cos, Real.arcsin,
            fun y x => Complex.arg ⟨x, y⟩, Real.sqrt⟩ : Libm ℝ) Dbl.nan Dbl.nan d)
        = some Dbl.nan)
      ∧ scan_state distance64 (⟨Real.pi, fun _ => 0, Real.sin, Real.cos, Real.arcsin,
          fun y x => Complex.arg ⟨x, y⟩, Real.sqrt⟩ : Libm ℝ) Dbl.nan Dbl.nan 1
        = some (Iter.next (distance64 1) 1.0e+9 (-1.0e+9))
      ∧ scan_run distance64 (⟨Real.pi, fun _ => 0, Real.sin, Real.cos, Real.arcsin,
          fun y x => Complex.arg ⟨x, y⟩, Real.sqrt⟩ : Libm ℝ) Dbl.nan Dbl.nan 286 0
          1.0e+9 (-1.0e+9)
        = some (1.0e+9, -1.0e+9, 285)
      ∧ ¬ ((1.0e+9 : ℝ) ≤ 0 ∧ (0 : ℝ) ≤ -1.0e+9)
      ∧ (if (1.0e+9 : ℝ) > 0.0 then 0.0 else 1.0e+9) ≠ (1.0e+9 : ℝ)
      ∧ (if (-1.0e+9 : ℝ) < 0.0 then 0.0 else -1.0e+9) ≠ (-1.0e+9 : ℝ)
      ∧ velo_range_d distance64 (⟨Real.pi, fun _ => 0, Real.sin, Real.cos, Real.arcsin,
          fun y x => Complex.arg ⟨x, y⟩, Real.sqrt⟩ : Libm ℝ) 286 Dbl.nan Dbl.nan
        = some (-70.0, 70.0) := by
  obtain ⟨c, hr, -, hc⟩ := scan_run_nan (distance64 : ℕ → ℝ) (Or.inl rfl)
    (⟨Real.pi, fun _ => 0, Real.sin, Real.cos, Real.arcsin,
      fun y x => Complex.arg ⟨x, y⟩, Real.sqrt⟩ : Libm ℝ) Dbl.nan 0
  have hc285 := hc rfl
  subst hc285
  refine ⟨fun d => rfl, ?_, hr, ?_, ?_, ?_, ?_⟩
  · have hd : (distance64 0 : ℝ) < RSUN + RMAX := distance64_lt 0 (by omega)
    rw [scan_state_next_succ _ _ _ _ 0 (distance64 0) 1.0e+9 (-1.0e+9) rfl]
    unfold scan_pass
    rw [if_pos hd]
    rfl
  · norm_num
  · norm_num
  · norm_num
  · unfold velo_range_d
    rw [show (286 : ℕ) = 286 + 0 from rfl, hr]
    unfold deviation VDEV
    norm_num

/-- The binary64 distance of pass 87, `8.599999999999985`, is above `8.5 + 2^-46`. -/
theorem distance64_86 : (8.5 : α) + 1 / 2 ^ 46 < distance64 86 := by
  unfold distance64
  rw [dist_units_86]
  norm_num

/-- The binary64 distances of the first 86 passes are below 8.5, by `2^-46` at least. -/
theorem distance64_before_centre (k : ℕ) (hk : k ≤ 85) :
    (distance64 k : α) ≤ 8.5 - 1 / 2 ^ 46 := by
  rw [← distance64_85]
  exact distance64_mono k 85 hk (by omega)

/-- The binary64 distances of the later passes are above 8.5, by more than `2^-46`. -/
theorem distance64_after_centre (k : ℕ) (hk : 86 ≤ k) (hk2 : k ≤ 285) :
    (8.5 : α) + 1 / 2 ^ 46 < distance64 k :=
  lt_of_lt_of_le distance64_86 (distance64_mono 86 k hk hk2)

/-- With `sin l * cos b = 0` the loop over either sequence of distances ends in
`(-70, 70)`. -/
theorem velo_range_d_meridian (dist : ℕ → α) (hd : dist = distance64 ∨ dist = distance_exact)
    (M : Libm α) (glon glat : α) (h : M.sin glon * M.cos glat = 0) (n : ℕ) :
    velo_range_d dist M (286 + n) (Dbl.num glon) (Dbl.num glat) = some (-70.0, 70.0) := by
  obtain ⟨-, hlt, hge, -⟩ := grid_facts dist hd
  obtain ⟨a, b, c, hr, ⟨ha, hb⟩, -, -⟩ := scan_run_invariant dist M (Dbl.num glon)
    (Dbl.num glat) hlt hge
    (fun v1 v2 => (v1 = 1.0e+9 ∨ v1 = 0) ∧ (v2 = -1.0e+9 ∨ v2 = 0))
    (fun k v1 v2 v hP _ hv => by
      have h0 := vRad_zero_of_meridian M glon glat h _ v hv
      subst h0
      obtain ⟨h1, h2⟩ := hP
      constructor
      · right
        rcases h1 with h1 | h1 <;> rw [h1] <;> norm_num
      · right
        rcases h2 with h2 | h2 <;> rw [h2] <;> norm_num)
    (286 + n) 0 1.0e+9 (-1.0e+9) (by omega) (by omega) ⟨Or.inl rfl, Or.inl rfl⟩
  unfold velo_range_d
  rw [hr]
  unfold deviation VDEV
  rcases ha with ha | ha <;> rcases hb with hb | hb <;> rw [ha, hb] <;> norm_num

/-- C11, amended: toward the Galactic centre (`l = 0`, `b = 0`) a sample at distance `d` has
height 0, `targetX = 0` and Galactocentric radius `|8.5 - d|`, which is 0 at `d = 8.5` only.
The `k`-th sample of the program (`k = 0..284`) lies at `distance64 k`, the binary64 sum of
`k` terms 0.1: its radius is 8.5 at `k = 0`, strictly decreases down to `2^-46` at `k = 85`
(where the distance is `8.5 - 2^-46`), and strictly increases afterwards; it is `2^-46` at
least, never 0. Every sample `k ≤ 284` is reached by the loop, and the reported velocity
range, `(-70, 70)`, contains 0. -/
theorem C11_centre_direction (M : Libm α) (hM : M.Exact) (hs : M.sin 0 = 0) (hc : M.cos 0 = 1)
    (k n : ℕ) :
    (∀ d : α, height M 0 d = 0 ∧ targetX M 0 0 d = 0 ∧ radius M 0 0 d = |8.5 - d|)
      ∧ (radius M 0 0 (distance64 0) = 8.5 ∧ radius M 0 0 (distance64 85) = 1 / 2 ^ 46
        ∧ radius M 0 0 8.5 = 0)
      ∧ (k < 85 → radius M 0 0 (distance64 (k + 1)) < radius M 0 0 (distance64 k))
      ∧ (85 ≤ k → k ≤ 284 →
          radius M 0 0 (distance64 k) < radius M 0 0 (distance64 (k + 1)))
      ∧ (k ≤ 285 → 1 / 2 ^ 46 ≤ radius M 0 0 (distance64 k))
      ∧ (k ≤ 284 → ∃ v1 v2, scan_state distance64 M (Dbl.num 0) (Dbl.num 0) k
          = some (Iter.next (distance64 k) v1 v2))
      ∧ (∃ v_min v_max : α,
          velo_range_d distance64 M (286 + n) (Dbl.num 0) (Dbl.num 0) = some (v_min, v_max)
            ∧ velo_range M (286 + n) 0 0 = some (v_min, v_max)
            ∧ v_min ≤ 0 ∧ 0 ≤ v_max) := by
  have hh : ∀ d : α, height M 0 d = 0 := fun d => height_zero_of_sin M 0 d hs
  have hrad := radius_toward_centre M hM hs hc
  have hlow : ∀ j : ℕ, j ≤ 85 → radius M 0 0 (distance64 j) = 8.5 - distance64 j := by
    intro j hj
    have := distance64_before_centre (α := α) j hj
    have hp : (0 : α) < 1 / 2 ^ 46 := by positivity
    rw [hrad, abs_of_nonneg (by linarith)]
  have hhigh : ∀ j : ℕ, 86 ≤ j → j ≤ 285 →
      radius M 0 0 (distance64 j) = distance64 j - 8.5 := by
    intro j hj hj2
    have := distance64_after_centre (α := α) j hj hj2
    have hp : (0 : α) < 1 / 2 ^ 46 := by positivity
    rw [hrad, abs_of_nonpos (by linarith)]
    ring
  refine ⟨fun d => ⟨hh d, ?_, hrad d⟩, ⟨?_, ?_, ?_⟩, ?_, ?_, ?_, ?_, ?_⟩
  · unfold targetX
    rw [hs]
    ring
  · rw [hrad, distance64_zero]
    norm_num
  · rw [hlow 85 (le_refl _), distance64_85]
    ring
  · rw [hrad]
    norm_num
  · intro hk
    rw [hlow k (by omega), hlow (k + 1) (by omega)]
    have := distance64_strict_mono (α := α) k (k + 1) (by omega) (by omega)
    linarith
  · intro hk hk2
    rcases Nat.eq_or_lt_of_le hk with h85 | h86
    · subst h85
      rw [hlow 85 (le_refl _), hhigh 86 (le_refl _) (by omega), distance64_85]
      have := distance64_86 (α := α)
      linarith
    · rw [hhigh k (by omega) (by omega), hhigh (k + 1) (by omega) (by omega)]
      have := distance64_strict_mono (α := α) k (k + 1) (by omega) (by omega)
      linarith
  · intro hk
    by_cases h85 : k ≤ 85
    · rw [hlow k h85]
      have := distance64_before_centre (α := α) k h85
      linarith
    · rw [hhigh k (by omega) hk]
      have := distance64_after_centre (α := α) k (by omega) hk
      linarith
  · intro hk
    exact scan_state_reach distance64 M (Dbl.num 0) (Dbl.num 0) k (fun j hj =>
      ⟨distance64_lt j (by omega), gt_height_false M 0 _ (by rw [hh]; exact ZDISC_nonneg)⟩)
  · have hmer : M.sin 0 * M.cos 0 = 0 := by rw [hs, zero_mul]
    refine ⟨-70.0, 70.0, velo_range_d_meridian distance64 (Or.inl rfl) M 0 0 hmer n,
      velo_range_meridian M 0 0 hmer n, ?_, ?_⟩ <;> norm_num

/-- Witness of the amended C11: the real library, sample `k = 84`. -/
theorem C11_centre_direction_witness :
    (Libm.Exact (⟨Real.pi, fun _ => 0, Real.sin, Real.cos, Real.arcsin,
          fun y x => Complex.arg ⟨x, y⟩, Real.sqrt⟩ : Libm ℝ)
        ∧ Real.sin 0 = 0 ∧ Real.cos 0 = 1 ∧ 84 < 85)
      ∧ radius (⟨Real.pi, fun _ => 0, Real.sin, Real.cos, Real.arcsin,
          fun y x => Complex.arg ⟨x, y⟩, Real.sqrt⟩ : Libm ℝ) 0 0 (distance64 (84 + 1))
        < radius (⟨Real.pi, fun _ => 0, Real.sin, Real.cos, Real.arcsin,
          fun y x => Complex.arg ⟨x, y⟩, Real.sqrt⟩ : Libm ℝ) 0 0 (distance64 84) :=
  ⟨⟨real_libm_exact _ _ _ _, Real.sin_zero, Real.cos_zero, by decide⟩,
    (C11_centre_direction _ (real_libm_exact _ _ _ _) Real.sin_zero Real.cos_zero 84 0).2.2.1
      (by decide)⟩

/-- C11, refuted as stated: toward the Galactic centre, with the real library, the sample
`k = 85` of the program does not lie at `d = 8.5` and its radius is not 0. The loop is still
running after 85 passes, at `distance = 8.5 - 2^-46` (the binary64 sum of 85 terms 0.1,
`8.499999999999986`); the radius of that sample is `2^-46`; and no sample of the loop has
radius 0. -/
theorem C11_centre_direction_counterexample :
    (distance64 85 : ℝ) = 8.5 - 1 / 2 ^ 46
      ∧ (distance64 85 : ℝ) ≠ 0.1 * ((85 : ℕ) : ℝ)
      ∧ (∃ v1 v2 : ℝ, scan_state distance64 (⟨Real.pi, fun _ => 0, Real.sin, Real.cos,
          Real.arcsin, fun y x => Complex.arg ⟨x, y⟩, Real.sqrt⟩ : Libm ℝ) (Dbl.num 0)
          (Dbl.num 0) 85 = some (Iter.next (distance64 85) v1 v2))
      ∧ radius (⟨Real.pi, fun _ => 0, Real.sin, Real.cos, Real.arcsin,
          fun y x => Complex.arg ⟨x, y⟩, Real.sqrt⟩ : Libm ℝ) 0 0 (distance64 85)
        = 1 / 2 ^ 46
      ∧ radius (⟨Real.pi, fun _ => 0, Real.sin, Real.cos, Real.arcsin,
          fun y x => Complex.arg ⟨x, y⟩, Real.sqrt⟩ : Libm ℝ) 0 0 (distance64 85) ≠ 0
      ∧ ∀ k : ℕ, k ≤ 285 → radius (⟨Real.pi, fun _ => 0, Real.sin, Real.cos, Real.arcsin,
          fun y x => Complex.arg ⟨x, y⟩, Real.sqrt⟩ : Libm ℝ) 0 0 (distance64 k) ≠ 0 := by
  have hrad := radius_toward_centre (⟨Real.pi, fun _ => 0, Real.sin, Real.cos, Real.arcsin,
    fun y x => Complex.arg ⟨x, y⟩, Real.sqrt⟩ : Libm ℝ) (real_libm_exact _ _ _ _)
    Real.sin_zero Real.cos_zero
  have h85 : radius (⟨Real.pi, fun _ => 0, Real.sin, Real.cos, Real.arcsin,
      fun y x => Complex.arg ⟨x, y⟩, Real.sqrt⟩ : Libm ℝ) 0 0 (distance64 85)
        = 1 / 2 ^ 46 := by
    rw [hrad, distance64_85, abs_of_nonneg (by norm_num)]
    ring
  refine ⟨distance64_85, ?_, ?_, h85, ?_, ?_⟩
  · rw [distance64_85]
    norm_num
  · exact scan_state_reach distance64 _ (Dbl.num 0) (Dbl.num 0) 85 (fun j hj =>
      ⟨distance64_lt j (by omega), gt_height_false _ 0 _ (by
        rw [height_zero_of_sin _ 0 _ Real.sin_zero]
        exact ZDISC_nonneg)⟩)
  · rw [h85]
    positivity
  · intro k hk h0
    rw [hrad, abs_eq_zero, sub_eq_zero] at h0
    exact distance64_ne_centre k hk h0.symm

/-- Toward the anticentre (`sin l = 0`, `cos l = -1`) and not below the pole (`cos b ≥ 0`) the
Galactocentric radius at a distance `d ≥ 0` is `8.5 + d * cos b`: it is never 0. -/
theorem radius_toward_anticentre (M : Libm α) (hM : M.Exact) (glon glat d : α)
    (hs : M.sin glon = 0) (hc : M.cos glon = -1) (hb : 0 ≤ M.cos glat) (hd : 0 ≤ d) :
    radius M glon glat d = 8.5 + d * M.cos glat ∧ 0 < radius M glon glat d := by
  have hpos : (0 : α) < 8.5 + d * M.cos glat := by
    have := mul_nonneg hd hb
    have h8 : (0 : α) < 8.5 := by norm_num
    linarith
  have e : radius M glon glat d = 8.5 + d * M.cos glat := by
    unfold radius targetX targetY RSUN
    rw [hs, hc]
    have e : d * 0 * M.cos glat * (d * 0 * M.cos glat)
        + (8.5 - d * -1 * M.cos glat) * (8.5 - d * -1 * M.cos glat)
        = (8.5 + d * M.cos glat) * (8.5 + d * M.cos glat) := by ring
    rw [e, sqrt_mul_self_eq_abs M hM, abs_of_pos hpos]
  exact ⟨e, e ▸ hpos⟩

/-- C10, amended: for every Galactic direction with `sin l * cos b = 0`, in particular toward
the anticentre (`l = 180` degrees, `b = 0`), every processed sample whose Galactocentric radius
is not 0 contributes a radial velocity of 0; a sample at radius 0 yields NaN and contributes
nothing; so every number that line 103 produces is 0, and the reported velocity range is
exactly `(-70.0, +70.0)`, for the loop with the exact step and for the loop over the binary64
distances of the program. Toward the anticentre (`sin l = 0`, `cos l = -1`, `cos b ≥ 0`) the
radius is `8.5 + d * cos b`, never 0. -/
theorem C10_meridian_range (M : Libm α) (glon glat : α)
    (h : M.sin glon * M.cos glat = 0) (n : ℕ) :
    (∀ d : α, radius M glon glat d ≠ 0 →
        vRad M glon glat (radius M glon glat d) = some (Dbl.num 0))
      ∧ (∀ d : α, radius M glon glat d = 0 →
        vRad M glon glat (radius M glon glat d) = some Dbl.nan)
      ∧ (∀ d v : α, vRad M glon glat (radius M glon glat d) = some (Dbl.num v) → v = 0)
      ∧ velo_range M (286 + n) glon glat = some (-70.0, 70.0)
      ∧ velo_range_d distance64 M (286 + n) (Dbl.num glon) (Dbl.num glat)
        = some (-70.0, 70.0)
      ∧ velo_range_d distance_exact M (286 + n) (Dbl.num glon) (Dbl.num glat)
        = some (-70.0, 70.0)
      ∧ (M.Exact → M.sin glon = 0 → M.cos glon = -1 → 0 ≤ M.cos glat →
          ∀ d : α, 0 ≤ d → radius M glon glat d = 8.5 + d * M.cos glat
            ∧ 0 < radius M glon glat d
            ∧ vRad M glon glat (radius M glon glat d) = some (Dbl.num 0)) := by
  have hnum : ∀ d : α, radius M glon glat d ≠ 0 →
      vRad M glon glat (radius M glon glat d) = some (Dbl.num 0) := by
    intro d hd
    rw [vRad_eq, if_neg hd, mul_assoc, h, mul_zero]
  refine ⟨hnum, fun d hd => ?_, fun d v hv => vRad_zero_of_meridian M glon glat h _ v hv,
    velo_range_meridian M glon glat h n,
    velo_range_d_meridian distance64 (Or.inl rfl) M glon glat h n,
    velo_range_d_meridian distance_exact (Or.inr rfl) M glon glat h n, ?_⟩
  · rw [vRad_eq, if_pos hd]
  · intro hM hs hc hb d hd
    obtain ⟨e, hpos⟩ := radius_toward_anticentre M hM glon glat d hs hc hb hd
    exact ⟨e, hpos, hnum d (ne_of_gt hpos)⟩

/-- Witness of the amended C10: the real library toward the anticentre, `l = π`, `b = 0`. -/
theorem C10_meridian_range_witness :
    Real.sin Real.pi * Real.cos 0 = 0
      ∧ velo_range (⟨Real.pi, fun _ => 0, Real.sin, Real.cos, Real.arcsin,
          fun y x => Complex.arg ⟨x, y⟩, Real.sqrt⟩ : Libm ℝ) (286 + 0) Real.pi 0
        = some (-70.0, 70.0)
      ∧ velo_range_d distance64 (⟨Real.pi, fun _ => 0, Real.sin, Real.cos, Real.arcsin,
          fun y x => Complex.arg ⟨x, y⟩, Real.sqrt⟩ : Libm ℝ) (286 + 0) (Dbl.num Real.pi)
          (Dbl.num 0)
        = some (-70.0, 70.0)
      ∧ ∀ d : ℝ, 0 ≤ d →
          vRad (⟨Real.pi, fun _ => 0, Real.sin, Real.cos, Real.arcsin,
            fun y x => Complex.arg ⟨x, y⟩, Real.sqrt⟩ : Libm ℝ) Real.pi 0
            (radius (⟨Real.pi, fun _ => 0, Real.sin, Real.cos, Real.arcsin,
              fun y x => Complex.arg ⟨x, y⟩, Real.sqrt⟩ : Libm ℝ) Real.pi 0 d)
          = some (Dbl.num 0) :=
  ⟨by simp,
    (C10_meridian_range _ Real.pi 0 (by simp) 0).2.2.2.1,
    (C10_meridian_range _ Real.pi 0 (by simp) 0).2.2.2.2.1,
    fun d hd => ((C10_meridian_range (⟨Real.pi, fun _ => 0, Real.sin, Real.cos, Real.arcsin,
      fun y x => Complex.arg ⟨x, y⟩, Real.sqrt⟩ : Libm ℝ) Real.pi 0 (by simp) 0).2.2.2.2.2.2
      (real_libm_exact _ _ _ _) Real.sin_pi Real.cos_pi (by simp) d hd).2.2⟩

/-- The binary64 distance of pass 87, `8.599999999999985`, in units of `2^-56`. -/
theorem distance64_86_eq : (distance64 86 : α) = 619695308726179200 / 2 ^ 56 := by
  unfold distance64
  rw [dist_units_86]
  norm_num

/-- C10, refuted as stated: a direction with `sin l * cos b = 0` in which a processed sample
does not contribute the radial velocity 0. With the real library, take `l = 0` and
`b = -arccos (8.5 / d)`, where `d = distance64 86` is the distance of pass 87 of the program
(`8.599999999999985`, `b` about -8.75 degrees), so that `d * cos b = 8.5`. The loop is still
running after 86 passes, at that distance; the sample is inside the disc and is processed;
its Galactocentric radius is 0; its `vRad` is not the number 0 but NaN, the value of
`0 * (RSUN / 0)`; and the pass leaves the bounds as they are. -/
theorem C10_meridian_range_counterexample :
    Real.sin 0 * Real.cos (-Real.arccos (8.5 / distance64 86)) = 0
      ∧ height (⟨Real.pi, fun _ => 0, Real.sin, Real.cos, Real.arcsin,
          fun y x => Complex.arg ⟨x, y⟩, Real.sqrt⟩ : Libm ℝ)
          (-Real.arccos (8.5 / distance64 86)) (distance64 86) ≤ ZDISC
      ∧ radius (⟨Real.pi, fun _ => 0, Real.sin, Real.cos, Real.arcsin,
          fun y x => Complex.arg ⟨x, y⟩, Real.sqrt⟩ : Libm ℝ) 0
          (-Real.arccos (8.5 / distance64 86)) (distance64 86) = 0
      ∧ vRad (⟨Real.pi, fun _ => 0, Real.sin, Real.cos, Real.arcsin,
          fun y x => Complex.arg ⟨x, y⟩, Real.sqrt⟩ : Libm ℝ) 0
          (-Real.arccos (8.5 / distance64 86))
          (radius (⟨Real.pi, fun _ => 0, Real.sin, Real.cos, Real.arcsin,
            fun y x => Complex.arg ⟨x, y⟩, Real.sqrt⟩ : Libm ℝ) 0
            (-Real.arccos (8.5 / distance64 86)) (distance64 86))
        = some Dbl.nan
      ∧ (some Dbl.nan : Option (Dbl ℝ)) ≠ some (Dbl.num 0)
      ∧ ∃ v1 v2 : ℝ, scan_state distance64 (⟨Real.pi, fun _ => 0, Real.sin, Real.cos,
            Real.arcsin, fun y x => Complex.arg ⟨x, y⟩, Real.sqrt⟩ : Libm ℝ) (Dbl.num 0)
            (Dbl.num (-Real.arccos (8.5 / distance64 86))) 86
            = some (Iter.next (distance64 86) v1 v2)
          ∧ scan_state distance64 (⟨Real.pi, fun _ => 0, Real.sin, Real.cos,
            Real.arcsin, fun y x => Complex.arg ⟨x, y⟩, Real.sqrt⟩ : Libm ℝ) (Dbl.num 0)
            (Dbl.num (-Real.arccos (8.5 / distance64 86))) 87
            = some (Iter.next (distance64 87) v1 v2) := by
  have hd : (distance64 86 : ℝ) = 619695308726179200 / 2 ^ 56 := distance64_86_eq
  have hd0 : (0 : ℝ) < distance64 86 := by rw [hd]; positivity
  have hd8 : (8.5 : ℝ) < distance64 86 := by rw [hd]; norm_num
  have hd9 : (distance64 86 : ℝ) < 9 := by rw [hd]; norm_num
  have hx0 : (0 : ℝ) < 8.5 / distance64 86 := div_pos (by norm_num) hd0
  have hx1 : (8.5 : ℝ) / distance64 86 ≤ 1 := by
    rw [div_le_one hd0]
    exact le_of_lt hd8
  have hx9 : (0.9 : ℝ) < 8.5 / distance64 86 := by
    rw [lt_div_iff₀ hd0]
    linarith
  have hcos : Real.cos (-Real.arccos (8.5 / distance64 86)) = 8.5 / distance64 86 := by
    rw [Real.cos_neg, Real.cos_arccos (by linarith) hx1]
  have hsin : |Real.sin (-Real.arccos (8.5 / distance64 86))| ≤ 1 / 2 := by
    rw [Real.sin_neg, abs_neg, Real.sin_arccos, abs_of_nonneg (Real.sqrt_nonneg _),
      Real.sqrt_le_iff]
    refine ⟨by norm_num, ?_⟩
    nlinarith
  have hh : ∀ j : ℕ, j ≤ 86 → height (⟨Real.pi, fun _ => 0, Real.sin, Real.cos, Real.arcsin,
      fun y x => Complex.arg ⟨x, y⟩, Real.sqrt⟩ : Libm ℝ)
      (-Real.arccos (8.5 / distance64 86)) (distance64 j) ≤ ZDISC := by
    intro j hj
    have h1 : (distance64 j : ℝ) ≤ distance64 86 := distance64_mono j 86 hj (by omega)
    have h0 : (0 : ℝ) ≤ distance64 j := distance64_nonneg j
    unfold height ZDISC
    show distance64 j * |Real.sin (-Real.arccos (8.5 / distance64 86))| ≤ 5.0
    have := mul_le_mul h1 hsin (abs_nonneg _) (le_of_lt hd0)
    have e5 : (5.0 : ℝ) = 5 := by norm_num
    rw [e5]
    linarith
  have hr : radius (⟨Real.pi, fun _ => 0, Real.sin, Real.cos, Real.arcsin,
      fun y x => Complex.arg ⟨x, y⟩, Real.sqrt⟩ : Libm ℝ) 0
      (-Real.arccos (8.5 / distance64 86)) (distance64 86) = 0 := by
    unfold radius targetX targetY RSUN
    show Real.sqrt (distance64 86 * Real.sin 0 * Real.cos (-Real.arccos (8.5 / distance64 86))
        * (distance64 86 * Real.sin 0 * Real.cos (-Real.arccos (8.5 / distance64 86)))
      + (8.5 - distance64 86 * Real.cos 0 * Real.cos (-Real.arccos (8.5 / distance64 86)))
        * (8.5 - distance64 86 * Real.cos 0
          * Real.cos (-Real.arccos (8.5 / distance64 86)))) = 0
    rw [hcos, Real.sin_zero, Real.cos_zero, mul_one, mul_div_cancel₀ _ (ne_of_gt hd0)]
    norm_num
  obtain ⟨v1, v2, hs⟩ := scan_state_reach (distance64 : ℕ → ℝ) (⟨Real.pi, fun _ => 0,
    Real.sin, Real.cos, Real.arcsin, fun y x => Complex.arg ⟨x, y⟩, Real.sqrt⟩ : Libm ℝ)
    (Dbl.num 0) (Dbl.num (-Real.arccos (8.5 / distance64 86))) 86 (fun j hj =>
      ⟨distance64_lt j (by omega), gt_height_false _ _ _ (hh j (by omega))⟩)
  refine ⟨by simp, hh 86 (le_refl _), hr, ?_, ?_, v1, v2, hs, ?_⟩
  · rw [hr, vRad_eq, if_pos rfl]
  · intro h
    cases h
  · rw [scan_state_next_succ _ _ _ _ 86 _ v1 v2 hs, scan_pass_update _ _ _ _ _ v1 v2
      (distance64_lt 86 (by omega)) (hh 86 (le_refl _)), if_pos hr, if_pos hr]

end Sampling

end VeloRange
